import Mathlib

/-!
Verification development for the `aiopvpc` library (Spanish electricity
hourly prices: incremental price-window cache, update scheduler, tariff
period engine, derived attributes).

Shallow embedding conventions:
* An *instant* is a `Nat` counting whole hours since 1970-01-01 00:00 UTC.
  All cached price keys are hour slots, so hour granularity is exact.
* Local wall-clock times (Europe/Madrid, the library's reference zone and
  default local zone) are likewise `Nat` hour counts, obtained by adding
  the zone offset (1 or 2 hours by the EU daylight-saving rule, which is
  what the tz database prescribes for Europe/Madrid in the years covered).
* Prices (Python floats) are modelled as rationals `ℚ`.
* Python `dict`s are modelled as insertion-ordered association lists.
* A Python function that can raise is modelled with `Option`.
-/

namespace Aiopvpc

/-! ### Civil calendar (Howard Hinnant's algorithms, Nat-restricted) -/

/-- Convert a day count (days since 1970-01-01) to `(year, month, day)`. -/
def civilFromDays (z : Nat) : Nat × Nat × Nat :=
  let z' := z + 719468
  let era := z' / 146097
  let doe := z' % 146097
  let yoe := (doe - doe / 1460 + doe / 36524 - doe / 146096) / 365
  let y := yoe + era * 400
  let doy := doe - (365 * yoe + yoe / 4 - yoe / 100)
  let mp := (5 * doy + 2) / 153
  let d := doy - (153 * mp + 2) / 5 + 1
  let m := if mp < 10 then mp + 3 else mp - 9
  (if m ≤ 2 then y + 1 else y, m, d)

/-- Convert `(year, month, day)` to a day count (days since 1970-01-01).
Valid for dates from 1970 on. -/
def daysFromCivil (y m d : Nat) : Nat :=
  let y' := if m ≤ 2 then y - 1 else y
  let era := y' / 400
  let yoe := y' % 400
  let mp := if 2 < m then m - 3 else m + 9
  let doy := (153 * mp + 2) / 5 + d - 1
  let doe := yoe * 365 + yoe / 4 - yoe / 100 + doy
  era * 146097 + doe - 719468

/-- ISO weekday, Monday = 1 .. Sunday = 7 (1970-01-01 was a Thursday). -/
def isoWeekday (z : Nat) : Nat := (z + 3) % 7 + 1

/-- Calendar year of a day count. -/
def yearOfDay (z : Nat) : Nat := (civilFromDays z).1

/-- Month of a day count. -/
def monthOfDay (z : Nat) : Nat := (civilFromDays z).2.1

/-- Day-of-month of a day count. -/
def domOfDay (z : Nat) : Nat := (civilFromDays z).2.2

/-! ### ISO calendar (`datetime.isocalendar()`) -/

/-- Day count of the Thursday in the same ISO week as `z`. -/
def isoThursday (z : Nat) : Nat := z + 4 - isoWeekday z

/-- ISO year of a day count. -/
def isoYear (z : Nat) : Nat := yearOfDay (isoThursday z)

/-- ISO week number of a day count. -/
def isoWeek (z : Nat) : Nat :=
  let t := isoThursday z
  (t - daysFromCivil (yearOfDay t) 1 1) / 7 + 1

/-- The `(year, week, weekday)` triple of `datetime.isocalendar()`. -/
def isoCalendar (z : Nat) : Nat × Nat × Nat := (isoYear z, isoWeek z, isoWeekday z)

/-! ### Europe/Madrid timezone (EU daylight-saving rule) -/

/-- Day count of the last Sunday of a 31-day month `m` of year `y`. -/
def lastSundayOf (y m : Nat) : Nat :=
  let lastDay := daysFromCivil y m 31
  lastDay - isoWeekday lastDay % 7

/-- UTC offset (in hours) of Europe/Madrid at a given UTC hour count:
CEST (+2) from the last Sunday of March 01:00 UTC until the last Sunday of
October 01:00 UTC, CET (+1) otherwise. -/
def madridOffset (u : Nat) : Nat :=
  let y := yearOfDay (u / 24)
  let dstStart := lastSundayOf y 3 * 24 + 1
  let dstEnd := lastSundayOf y 10 * 24 + 1
  if dstStart ≤ u ∧ u < dstEnd then 2 else 1

/-- Local (Europe/Madrid) hour count of a UTC hour count
(`astimezone(REFERENCE_TZ)`). -/
def localOfUtc (u : Nat) : Nat := u + madridOffset u

/-- Local calendar day (as day count) of a UTC hour count. -/
def localDay (u : Nat) : Nat := localOfUtc u / 24

/-- Local hour of day (0..23) of a UTC hour count. -/
def localHour (u : Nat) : Nat := localOfUtc u % 24

/-- UTC hour count of local midnight of local day `d`
(`local_dt.replace(hour=0).astimezone(UTC_TZ)`; local midnight is never
ambiguous in Europe/Madrid, transitions happen at 2-3 AM local). -/
def utcFromLocalMidnight (d : Nat) : Nat :=
  if madridOffset (d * 24 - 1) = 1 then d * 24 - 1 else d * 24 - 2

/-! ### Tariff period engine (`pvpc_tariff.py`)

The source works on a timezone-aware *local* timestamp; here a local hour
count.  The year-keyed holiday table is partial: indexing a missing year
raises `KeyError` in Python, modelled by `Option`. -/

/-- `_HOURS_P2`: shoulder hours for the peninsula zone. -/
def hoursP2 : List Nat := [8, 9, 14, 15, 16, 17, 22, 23]

/-- `_HOURS_P2_CYM`: shoulder hours for the Ceuta/Melilla zone. -/
def hoursP2CYM : List Nat := [8, 9, 10, 15, 16, 17, 18, 23]

/-- `_NATIONAL_EXTRA_HOLIDAYS_FOR_P3_PERIOD`: year-keyed table of national
holidays, each year mapping to its `(month, day)` dates (the dict values,
weekday descriptions, are irrelevant to the logic and omitted). -/
def nationalExtraHolidays : List (Nat × List (Nat × Nat)) :=
  [ (2021, [(1, 1), (1, 6), (4, 2), (10, 12), (11, 1), (12, 6), (12, 8)]),
    (2022, [(1, 6), (4, 15), (8, 15), (10, 12), (11, 1), (12, 6), (12, 8)]),
    (2023, [(1, 6), (4, 7), (5, 1), (8, 15), (10, 12), (11, 1), (12, 6),
            (12, 8), (12, 25)]),
    (2024, [(1, 1), (3, 29), (5, 1), (8, 15), (11, 1), (12, 6), (12, 25)]),
    (2025, [(1, 1), (1, 6), (4, 18), (5, 1), (8, 15), (12, 8), (12, 25)]) ]

/-- `_NATIONAL_EXTRA_HOLIDAYS_FOR_P3_PERIOD[year]`: `none` models the
`KeyError` Python raises for a year absent from the table. -/
def holidaysForYear (y : Nat) : Option (List (Nat × Nat)) :=
  (nationalExtraHolidays.lookup y)

/-- `_tariff_period_key(local_ts, zone_ceuta_melilla)`: period key P1/P2/P3
for the hour of local timestamp `localTs` (an hour count).  The partial
table indexing (`KeyError` on a missing year) is rendered as `Option.bind`;
`day`, `national_holiday` are inlined. -/
def tariffPeriodKey (localTs : Nat) (zoneCeutaMelilla : Bool) : Option String :=
  (holidaysForYear (yearOfDay (localTs / 24))).bind fun hols =>
    if (monthOfDay (localTs / 24), domOfDay (localTs / 24)) ∈ hols ∨
        6 ≤ isoWeekday (localTs / 24) ∨ localTs % 24 < 8 then some "P3"
    else if zoneCeutaMelilla ∧ (localTs % 24) ∈ hoursP2CYM then some "P2"
    else if ¬zoneCeutaMelilla ∧ (localTs % 24) ∈ hoursP2 then some "P2"
    else some "P1"

/-- The forward walk of `get_current_and_next_tariff_periods`, generic in
the hour-to-period function `f`: starting at offset `k` hours after
`localTs`, find the first hour whose period differs from `cur`, returning
`(next_period, delta_hours)`.  The Python loop is unbounded; `fuel` bounds
the search here, and `none` covers both fuel exhaustion and a `KeyError`
raised by the period lookup along the walk. -/
def nextPeriodWalkGen (f : Nat → Option String) (localTs : Nat) (cur : String) :
    Nat → Nat → Option (String × Nat)
  | 0, _ => none
  | fuel + 1, k =>
    match f (localTs + k) with
    | none => none
    | some p =>
      if p = cur then nextPeriodWalkGen f localTs cur fuel (k + 1)
      else some (p, k)

/-- The forward walk instantiated with `_tariff_period_key`. -/
def nextPeriodWalk (localTs : Nat) (zoneCeutaMelilla : Bool) (cur : String)
    (fuel k : Nat) : Option (String × Nat) :=
  nextPeriodWalkGen (fun t => tariffPeriodKey t zoneCeutaMelilla) localTs cur fuel k

/-- `get_current_and_next_tariff_periods(local_ts, zone_ceuta_melilla)`:
`(current_period, next_period, delta_hours)`, searching at most `fuel`
hours ahead.  `none` models a `KeyError` (or a fruitless bounded walk). -/
def getCurrentAndNextTariffPeriods (localTs : Nat) (zoneCeutaMelilla : Bool)
    (fuel : Nat) : Option (String × String × Nat) :=
  (tariffPeriodKey localTs zoneCeutaMelilla).bind fun cur =>
    (nextPeriodWalk localTs zoneCeutaMelilla cur fuel 1).map fun pk =>
      (cur, pk.1, pk.2)

/-- A day is a *working day* when the holiday table covers its year, it is
not listed as a holiday, and it is not a Saturday/Sunday. -/
def isWorkingDay (d : Nat) : Bool :=
  (holidaysForYear (yearOfDay d)).elim false fun hs =>
    decide ((monthOfDay d, domOfDay d) ∉ hs) && decide (isoWeekday d < 6)

/-- Spec-side holiday test, per the claim's words: look the year up in the
table, then the date; a missing year finds no holiday. -/
def claimHolidayLookup (d : Nat) : Bool :=
  (holidaysForYear (yearOfDay d)).elim false fun hs =>
    decide ((monthOfDay d, domOfDay d) ∈ hs)

/-- Spec-side P3 condition: national holiday, or Saturday/Sunday, or local
hour before 08:00. -/
def claimP3Cond (localTs : Nat) : Prop :=
  claimHolidayLookup (localTs / 24) = true ∨
    6 ≤ isoWeekday (localTs / 24) ∨ localTs % 24 < 8

/-- Spec-side zone-specific shoulder-hour sets, as literally given in the
claim. -/
def claimShoulderHours (zoneCeutaMelilla : Bool) : List Nat :=
  if zoneCeutaMelilla then [8, 9, 10, 15, 16, 17, 18, 23]
  else [8, 9, 14, 15, 16, 17, 22, 23]

/-! ### Helper lemmas for the tariff period engine -/

lemma nextPeriodWalkGen_finds (f : Nat → Option String) (u : Nat) (cur : String) :
    ∀ (fuel k₀ kw : Nat), k₀ ≤ kw → kw < k₀ + fuel →
    (∀ j, k₀ ≤ j → j ≤ kw → (f (u + j)).isSome) →
    f (u + kw) ≠ some cur →
    ∃ p k, nextPeriodWalkGen f u cur fuel k₀ = some (p, k) ∧ p ≠ cur ∧ k ≤ kw := by
  intro fuel
  induction fuel with
  | zero => intro k₀ kw h1 h2 _ _; omega
  | succ n ih =>
    intro k₀ kw h1 h2 hsome hdiff
    have hk0 : (f (u + k₀)).isSome := hsome k₀ le_rfl h1
    obtain ⟨p, hp⟩ := Option.isSome_iff_exists.mp hk0
    by_cases hpc : p = cur
    · subst hpc
      have hne : k₀ ≠ kw := by
        intro h; exact hdiff (h ▸ hp)
      obtain ⟨q, k, hq, hqc, hk⟩ := ih (k₀ + 1) kw (by omega) (by omega)
        (fun j hj1 hj2 => hsome j (by omega) hj2) hdiff
      refine ⟨q, k, ?_, hqc, hk⟩
      simp only [nextPeriodWalkGen, hp]
      simpa using hq
    · refine ⟨p, k₀, ?_, hpc, h1⟩
      simp only [nextPeriodWalkGen, hp]
      simp [hpc]

lemma tariffPeriodKey_some (localTs : Nat) (z : Bool) (hs : List (Nat × Nat))
    (hy : holidaysForYear (yearOfDay (localTs / 24)) = some hs) :
    tariffPeriodKey localTs z =
      (if (monthOfDay (localTs / 24), domOfDay (localTs / 24)) ∈ hs ∨
          6 ≤ isoWeekday (localTs / 24) ∨ localTs % 24 < 8 then some "P3"
       else if z ∧ (localTs % 24) ∈ hoursP2CYM then some "P2"
       else if ¬z ∧ (localTs % 24) ∈ hoursP2 then some "P2"
       else some "P1") := by
  unfold tariffPeriodKey
  rw [hy, Option.some_bind]

lemma tariffPeriodKey_none (localTs : Nat) (z : Bool)
    (hy : holidaysForYear (yearOfDay (localTs / 24)) = none) :
    tariffPeriodKey localTs z = none := by
  unfold tariffPeriodKey
  rw [hy, Option.none_bind]

lemma tariffPeriodKey_isSome (localTs : Nat) (z : Bool)
    (hy : (holidaysForYear (yearOfDay (localTs / 24))).isSome) :
    (tariffPeriodKey localTs z).isSome := by
  obtain ⟨hs, h⟩ := Option.isSome_iff_exists.mp hy
  rw [tariffPeriodKey_some _ _ hs h]
  split_ifs <;> simp

lemma tariffPeriodKey_workingDay_8 (w : Nat) (z : Bool) (hw : isWorkingDay w = true) :
    tariffPeriodKey (w * 24 + 8) z = some "P2" := by
  unfold isWorkingDay at hw
  rcases hy : holidaysForYear (yearOfDay w) with _ | hs <;> rw [hy] at hw
  · exact absurd hw (by simp)
  · simp only [Option.elim_some, Bool.and_eq_true, decide_eq_true_eq] at hw
    obtain ⟨hnh, hwd⟩ := hw
    have hday : (w * 24 + 8) / 24 = w := by omega
    rw [tariffPeriodKey_some _ _ hs (by rw [hday]; exact hy)]
    rw [hday]
    have hhour : (w * 24 + 8) % 24 = 8 := by omega
    rw [hhour]
    rw [if_neg (by push_neg; exact ⟨hnh, by omega, by omega⟩)]
    cases z <;> simp [hoursP2, hoursP2CYM]

lemma tariffPeriodKey_workingDay_11 (w : Nat) (z : Bool) (hw : isWorkingDay w = true) :
    tariffPeriodKey (w * 24 + 11) z = some "P1" := by
  unfold isWorkingDay at hw
  rcases hy : holidaysForYear (yearOfDay w) with _ | hs <;> rw [hy] at hw
  · exact absurd hw (by simp)
  · simp only [Option.elim_some, Bool.and_eq_true, decide_eq_true_eq] at hw
    obtain ⟨hnh, hwd⟩ := hw
    have hday : (w * 24 + 11) / 24 = w := by omega
    rw [tariffPeriodKey_some _ _ hs (by rw [hday]; exact hy)]
    rw [hday]
    have hhour : (w * 24 + 11) % 24 = 11 := by omega
    rw [hhour]
    rw [if_neg (by push_neg; exact ⟨hnh, by omega, by omega⟩)]
    cases z <;> simp [hoursP2, hoursP2CYM]

/-! ### Claims C4, C5, C6: tariff period engine -/

instance claimP3CondDecidable (t : Nat) : Decidable (claimP3Cond t) :=
  inferInstanceAs (Decidable (_ = true ∨ _ ≤ _ ∨ _ < _))

lemma claimShoulderHours_true : claimShoulderHours true = hoursP2CYM := rfl

lemma claimShoulderHours_false : claimShoulderHours false = hoursP2 := rfl

lemma claimP3Cond_iff (localTs : Nat) (hs : List (Nat × Nat))
    (hy : holidaysForYear (yearOfDay (localTs / 24)) = some hs) :
    claimP3Cond localTs ↔
      ((monthOfDay (localTs / 24), domOfDay (localTs / 24)) ∈ hs ∨
        6 ≤ isoWeekday (localTs / 24) ∨ localTs % 24 < 8) := by
  unfold claimP3Cond claimHolidayLookup
  rw [hy]
  simp

/-- C4 (amended): on every local timestamp whose calendar year is present
in the holiday table, `_tariff_period_key` returns P3 exactly when the day
is a listed national holiday, or the ISO weekday is Saturday/Sunday, or
the local hour is before 08:00; otherwise P2 exactly when the hour is in
the zone-specific shoulder-hour set; otherwise P1. -/
theorem C4_tariff_period_classification (localTs : Nat) (z : Bool)
    (hy : (holidaysForYear (yearOfDay (localTs / 24))).isSome) :
    (tariffPeriodKey localTs z = some "P3" ↔ claimP3Cond localTs) ∧
    (tariffPeriodKey localTs z = some "P2" ↔
      ¬claimP3Cond localTs ∧ (localTs % 24) ∈ claimShoulderHours z) ∧
    (tariffPeriodKey localTs z = some "P1" ↔
      ¬claimP3Cond localTs ∧ (localTs % 24) ∉ claimShoulderHours z) := by
  obtain ⟨hs, h⟩ := Option.isSome_iff_exists.mp hy
  rw [tariffPeriodKey_some _ _ hs h]
  by_cases hc : (monthOfDay (localTs / 24), domOfDay (localTs / 24)) ∈ hs ∨
      6 ≤ isoWeekday (localTs / 24) ∨ localTs % 24 < 8
  · have hclp : claimP3Cond localTs := (claimP3Cond_iff _ hs h).mpr hc
    rw [if_pos hc]
    exact ⟨iff_of_true rfl hclp,
      iff_of_false (by simp) fun hx => hx.1 hclp,
      iff_of_false (by simp) fun hx => hx.1 hclp⟩
  · have hcln : ¬claimP3Cond localTs := fun hx => hc ((claimP3Cond_iff _ hs h).mp hx)
    rw [if_neg hc]
    cases z
    · rw [claimShoulderHours_false]
      by_cases hm : (localTs % 24) ∈ hoursP2
      · rw [if_neg (by simp), if_pos ⟨by simp, hm⟩]
        exact ⟨iff_of_false (by simp) hcln,
          iff_of_true rfl ⟨hcln, hm⟩,
          iff_of_false (by simp) fun hx => hx.2 hm⟩
      · rw [if_neg (by simp), if_neg (by simp [hm])]
        exact ⟨iff_of_false (by simp) hcln,
          iff_of_false (by simp) fun hx => hm hx.2,
          iff_of_true rfl ⟨hcln, hm⟩⟩
    · rw [claimShoulderHours_true]
      by_cases hm : (localTs % 24) ∈ hoursP2CYM
      · rw [if_pos ⟨rfl, hm⟩]
        exact ⟨iff_of_false (by simp) hcln,
          iff_of_true rfl ⟨hcln, hm⟩,
          iff_of_false (by simp) fun hx => hx.2 hm⟩
      · rw [if_neg (by simp [hm]), if_neg (by simp)]
        exact ⟨iff_of_false (by simp) hcln,
          iff_of_false (by simp) fun hx => hm hx.2,
          iff_of_true rfl ⟨hcln, hm⟩⟩

/-- C4 witness: Monday 2021-06-07 08:00 local, peninsula zone, is a
shoulder (P2) hour. -/
theorem C4_witness :
    (holidaysForYear (yearOfDay ((daysFromCivil 2021 6 7 * 24 + 8) / 24))).isSome ∧
    tariffPeriodKey (daysFromCivil 2021 6 7 * 24 + 8) false = some "P2" :=
  ⟨by decide,
   ((C4_tariff_period_classification (daysFromCivil 2021 6 7 * 24 + 8) false
      (by decide)).2.1).mpr (by decide)⟩

/-- C4 counterexample: Saturday 2020-06-06 10:00 local.  The claim's P3
condition holds (weekend), but the code raises `KeyError` (year 2020 is
not in the holiday table) instead of returning P3. -/
theorem C4_counterexample :
    claimP3Cond (daysFromCivil 2020 6 6 * 24 + 10) ∧
    tariffPeriodKey (daysFromCivil 2020 6 6 * 24 + 10) false ≠ some "P3" := by
  decide
/-- C5 (amended): the forward walk of
`get_current_and_next_tariff_periods` is *not* bounded by 24 iterations
(see the counterexample), but whenever some working day lies within the
3 calendar days after the start (and the holiday table covers the walked
window) it terminates within 96 iterations, and the returned next period
always differs from the current period. -/
theorem C5_walk_termination (u : Nat) (z : Bool) (w : Nat)
    (hw1 : u / 24 < w) (hw2 : w ≤ u / 24 + 3)
    (hcov : ∀ k, k ≤ w * 24 + 11 - u →
      (holidaysForYear (yearOfDay ((u + k) / 24))).isSome)
    (hwork : isWorkingDay w = true) :
    ∃ cur next delta,
      getCurrentAndNextTariffPeriods u z 96 = some (cur, next, delta) ∧
      next ≠ cur ∧ delta ≤ 96 := by
  have hub : u < w * 24 := by omega
  have hb : w * 24 + 11 ≤ u + 96 := by omega
  have hcur : (tariffPeriodKey u z).isSome := by
    have h0 := hcov 0 (Nat.zero_le _)
    rw [Nat.add_zero] at h0
    exact tariffPeriodKey_isSome u z h0
  obtain ⟨cur, hc⟩ := Option.isSome_iff_exists.mp hcur
  have hpa : tariffPeriodKey (u + (w * 24 + 8 - u)) z = some "P2" := by
    have he : u + (w * 24 + 8 - u) = w * 24 + 8 := by omega
    rw [he]
    exact tariffPeriodKey_workingDay_8 w z hwork
  have hpb : tariffPeriodKey (u + (w * 24 + 11 - u)) z = some "P1" := by
    have he : u + (w * 24 + 11 - u) = w * 24 + 11 := by omega
    rw [he]
    exact tariffPeriodKey_workingDay_11 w z hwork
  have hkw : ∃ kw, 1 ≤ kw ∧ kw ≤ w * 24 + 11 - u ∧
      tariffPeriodKey (u + kw) z ≠ some cur := by
    by_cases hq : cur = "P2"
    · exact ⟨w * 24 + 11 - u, by omega, le_rfl, by rw [hpb, hq]; decide⟩
    · exact ⟨w * 24 + 8 - u, by omega, by omega, by rw [hpa]; simp [hq]; tauto⟩
  obtain ⟨kw, hkw1, hkw2, hkwdiff⟩ := hkw
  obtain ⟨p, k, hwalk, hpc, hk⟩ :=
    nextPeriodWalkGen_finds (fun t => tariffPeriodKey t z) u cur 96 1 kw hkw1
      (by omega)
      (fun j hj1 hj2 => tariffPeriodKey_isSome _ _ (hcov j (by omega)))
      hkwdiff
  refine ⟨cur, p, k, ?_, hpc, by omega⟩
  unfold getCurrentAndNextTariffPeriods
  rw [hc, Option.some_bind]
  unfold nextPeriodWalk
  rw [hwalk, Option.map_some']

/-- C5 witness: Wednesday 2021-06-02 10:00 local, with Thursday 2021-06-03
as the nearby working day. -/
theorem C5_witness :
    ∃ cur next delta,
      getCurrentAndNextTariffPeriods (daysFromCivil 2021 6 2 * 24 + 10) false 96 =
        some (cur, next, delta) ∧ next ≠ cur ∧ delta ≤ 96 :=
  C5_walk_termination (daysFromCivil 2021 6 2 * 24 + 10) false
    (daysFromCivil 2021 6 3) (by decide) (by decide) (by decide) (by decide)

/-- C5 counterexample: from Saturday 2021-06-05 00:00 local the period is
P3 for the whole weekend and through Monday 07:00, so the first period
change is 56 hours ahead: the walk does not terminate within 24
iterations. -/
theorem C5_counterexample :
    getCurrentAndNextTariffPeriods (daysFromCivil 2021 6 5 * 24) false 24 = none ∧
    getCurrentAndNextTariffPeriods (daysFromCivil 2021 6 5 * 24) false 96 =
      some ("P3", "P2", 56) := by
  decide

/-- C6: the claim says a tariff-period lookup must not crash on a year
missing from the holiday table, but `_tariff_period_key` indexes
`_NATIONAL_EXTRA_HOLIDAYS_FOR_P3_PERIOD[day.year]` unguarded, so at local
2026-01-01 10:00 (year 2026 absent) it raises `KeyError` (`none` here). -/
theorem C6_missing_year_crashes :
    holidaysForYear (yearOfDay ((daysFromCivil 2026 1 1 * 24 + 10) / 24)) = none ∧
    tariffPeriodKey (daysFromCivil 2026 1 1 * 24 + 10) false = none := by
  decide

/-! ### Insertion-ordered dictionaries

Python `dict`s are modelled as association lists: `dlookup` is key lookup,
`dinsert` is `d[k] = v` (overwrite in place, or append a new key), and
`dupdate` is `d.update(new)`. -/

/-- Key lookup in an insertion-ordered dictionary. -/
def dlookup {α β : Type} [DecidableEq α] (k : α) : List (α × β) → Option β
  | [] => none
  | (k', v) :: t => if k' = k then some v else dlookup k t

/-- `d[k] = v`: overwrite the value at an existing key (keeping its
position), or append a new key at the end. -/
def dinsert {α β : Type} [DecidableEq α] (d : List (α × β)) (k : α) (v : β) :
    List (α × β) :=
  if (dlookup k d).isSome then
    d.map fun p => if p.1 = k then (k, v) else p
  else d ++ [(k, v)]

/-- `d.update(new)`: last-writer-wins merge, one `dinsert` per entry. -/
def dupdate {α β : Type} [DecidableEq α] (d new : List (α × β)) : List (α × β) :=
  new.foldl (fun acc e => dinsert acc e.1 e.2) d

/-! ### Today/tomorrow split and hourly attributes (`prices.py`) -/

/-- `_is_tomorrow_price(ts, ref)`: `any` over the zipped `isocalendar()`
triples of the two (local) timestamps. -/
def isTomorrowPrice (ts ref : Nat) : Bool :=
  decide ((isoCalendar (ref / 24)).1 < (isoCalendar (ts / 24)).1) ||
  decide ((isoCalendar (ref / 24)).2.1 < (isoCalendar (ts / 24)).2.1) ||
  decide ((isoCalendar (ref / 24)).2.2 < (isoCalendar (ts / 24)).2.2)

/-- `_split_today_tomorrow_prices(current_prices, utc_time, timezone)`:
the source loop appends each entry, in order, to the `today` or `tomorrow`
dict; equivalently two filters.  The timezone is Europe/Madrid, the
library default. -/
def splitTodayTomorrowPrices (currentPrices : List (Nat × ℚ)) (utcTime : Nat) :
    List (Nat × ℚ) × List (Nat × ℚ) :=
  (currentPrices.filter fun e => !isTomorrowPrice (localOfUtc e.1) (localOfUtc utcTime),
   currentPrices.filter fun e => isTomorrowPrice (localOfUtc e.1) (localOfUtc utcTime))

/-- The attribute key `f"{prefix}{ts_local.hour:02d}h"` of
`_make_price_tag_attributes`. -/
def priceTagKey (tomorrow : Bool) (h : Nat) : String :=
  (if tomorrow then "price_next_day_" else "price_") ++
    (if h < 10 then "0" ++ toString h else toString h) ++ "h"

/-- The loop of `_make_price_tag_attributes`, generic in the hour-of-key
function `hourOf`: insert each price under its hour tag, suffixing the key
with `"_d"` when it is already taken (the DST duplicated hour). -/
def buildPriceTagsGen (hourOf : Nat → Nat) (tomorrow : Bool) :
    List (Nat × ℚ) → List (String × ℚ) → List (String × ℚ)
  | [], attributes => attributes
  | e :: rest, attributes =>
    let key0 := priceTagKey tomorrow (hourOf e.1)
    let attrKey := if (dlookup key0 attributes).isSome then key0 ++ "_d" else key0
    buildPriceTagsGen hourOf tomorrow rest (dinsert attributes attrKey e.2)

/-- `_make_price_tag_attributes(prices, timezone, tomorrow)` with the
local-hour function of the (Europe/Madrid) timezone. -/
def makePriceTagAttributes (prices : List (Nat × ℚ)) (tomorrow : Bool) :
    List (String × ℚ) :=
  buildPriceTagsGen localHour tomorrow prices []

/-- `KEY_INJECTION`.  Modelled from the spec: the sensor-key constant of
the injection ("higher is better") indicator is defined in a const module
not present here; only its inequality with other keys matters. -/
def KEY_INJECTION : String := "injection_price"

/-- The sort key comparison of `sorted(current_prices.items(), key=lambda
x: sign_is_best * x[1])`. -/
def priceLe (sign : ℚ) (a b : Nat × ℚ) : Prop := sign * a.2 ≤ sign * b.2

instance priceLeDecidable (sign : ℚ) : DecidableRel (priceLe sign) :=
  fun a b => inferInstanceAs (Decidable (sign * a.2 ≤ sign * b.2))

instance priceLeTotal (sign : ℚ) : IsTotal (Nat × ℚ) (priceLe sign) :=
  ⟨fun a b => le_total (sign * a.2) (sign * b.2)⟩

instance priceLeTrans (sign : ℚ) : IsTrans (Nat × ℚ) (priceLe sign) :=
  ⟨fun _ _ _ => le_trans⟩

/-- `min(values)` of a Python iterable (total here; Python raises
`ValueError` on an empty one, a case the callers never reach and the
theorems exclude). -/
def minValue : List ℚ → ℚ
  | [] => 0
  | v :: vs => vs.foldl min v

/-- `max(values)`, as `minValue`. -/
def maxValue : List ℚ → ℚ
  | [] => 0
  | v :: vs => vs.foldl max v

/-- Python `round(q, prec)`, modelled with rational half-up rounding (the
float banker's rounding differs only on exact ties, irrelevant here). -/
def roundTo (q : ℚ) (prec : Nat) : ℚ := (round (q * 10 ^ prec) : ℚ) / 10 ^ prec

/-- The result fields of `_make_price_stats_attributes`; a field is
`none` when the source leaves the corresponding attribute unset (empty
`better_prices_ahead`, `ValueError` of `list.index`, `ZeroDivisionError`
of the min-max normalization). -/
structure PriceStats where
  next_better_price : Option ℚ
  hours_to_better_price : Option Nat
  num_better_prices_ahead : Option Nat
  price_position : Option Nat
  price_frac : Option ℚ
  max_price : ℚ
  max_price_at : Nat
  min_price : ℚ
  min_price_at : Nat
  next_best_at : List Nat

/-- `_make_price_stats_attributes(sensor_key, current_price,
current_prices, utc_time, timezone)`.  `sorted` (a stable sort) is
rendered as insertion sort, which computes the same list; `price_frac` is
the source's min-max normalization attribute. -/
def makePriceStatsAttributes (sensorKey : String) (currentPrice : ℚ)
    (currentPrices : List (Nat × ℚ)) (utcTime : Nat) : PriceStats :=
  let signIsBest : ℚ := if sensorKey ≠ KEY_INJECTION then 1 else -1
  let pricesSorted := List.insertionSort (priceLe signIsBest) currentPrices
  let betterPricesAhead := currentPrices.filter fun e =>
    utcTime < e.1 ∧ signIsBest * e.2 < signIsBest * currentPrice
  let values := currentPrices.map Prod.snd
  let maxPrice := maxValue values
  let minPrice := minValue values
  let firstPriceAt := localHour ((pricesSorted.headD (0, 0)).1)
  let lastPriceAt := localHour ((pricesSorted.getLastD (0, 0)).1)
  { next_better_price := betterPricesAhead.head?.map Prod.snd
    hours_to_better_price := betterPricesAhead.head?.map fun e => e.1 - utcTime
    num_better_prices_ahead := betterPricesAhead.head?.map fun _ => betterPricesAhead.length
    price_position := ((pricesSorted.map Prod.snd).indexOf? currentPrice).map (· + 1)
    price_frac :=
      if maxPrice - minPrice = 0 then none
      else some (roundTo ((currentPrice - minPrice) / (maxPrice - minPrice)) 2)
    max_price := maxPrice
    max_price_at := if signIsBest = 1 then lastPriceAt else firstPriceAt
    min_price := minPrice
    min_price_at := if signIsBest = 1 then firstPriceAt else lastPriceAt
    next_best_at := (pricesSorted.filter fun e => utcTime ≤ e.1).map fun e =>
      localHour e.1 }

/-! ### Claims C8 and C9: today/tomorrow split and hour-tag attributes -/

/-- Spec-side condition of the today/tomorrow split: some local-zone ISO
calendar field (year, then ISO week, then day) of the entry strictly
exceeds the reference's corresponding field. -/
def claimCalendarExceeds (ts ref : Nat) : Prop :=
  isoYear (localDay ref) < isoYear (localDay ts) ∨
  isoWeek (localDay ref) < isoWeek (localDay ts) ∨
  isoWeekday (localDay ref) < isoWeekday (localDay ts)

instance claimCalendarExceedsDecidable (ts ref : Nat) :
    Decidable (claimCalendarExceeds ts ref) :=
  inferInstanceAs (Decidable (_ < _ ∨ _ < _ ∨ _ < _))

lemma isTomorrowPrice_iff (ts ref : Nat) :
    isTomorrowPrice (localOfUtc ts) (localOfUtc ref) = true ↔
      claimCalendarExceeds ts ref := by
  unfold isTomorrowPrice claimCalendarExceeds isoCalendar localDay
  simp [Bool.or_eq_true, or_assoc]

/-- C8: an entry lands in the "tomorrow" window of the split exactly when
it is in the series and some local-zone ISO calendar field (year, ISO
week, day) strictly exceeds the reference's; the remaining entries land in
the "today" window. -/
theorem C8_today_tomorrow_split (prices : List (Nat × ℚ)) (utcTime ts : Nat) (v : ℚ) :
    ((ts, v) ∈ (splitTodayTomorrowPrices prices utcTime).2 ↔
      (ts, v) ∈ prices ∧ claimCalendarExceeds ts utcTime) ∧
    ((ts, v) ∈ (splitTodayTomorrowPrices prices utcTime).1 ↔
      (ts, v) ∈ prices ∧ ¬claimCalendarExceeds ts utcTime) := by
  unfold splitTodayTomorrowPrices
  constructor
  · rw [List.mem_filter]
    exact and_congr_right fun _ => isTomorrowPrice_iff ts utcTime
  · rw [List.mem_filter]
    refine and_congr_right fun _ => ?_
    rw [Bool.not_eq_true', ← Bool.not_eq_true, not_iff_not]
    exact isTomorrowPrice_iff ts utcTime
lemma priceTagKey_inj : ∀ (b : Bool), ∀ h1, h1 < 24 → ∀ h2, h2 < 24 →
    priceTagKey b h1 = priceTagKey b h2 → h1 = h2 := by decide

lemma priceTagKey_ne_dsuffix : ∀ (b : Bool), ∀ h1, h1 < 24 → ∀ h2, h2 < 24 →
    priceTagKey b h1 ≠ priceTagKey b h2 ++ "_d" := by decide

lemma priceTagKey_dsuffix_inj : ∀ (b : Bool), ∀ h1, h1 < 24 → ∀ h2, h2 < 24 →
    priceTagKey b h1 ++ "_d" = priceTagKey b h2 ++ "_d" → h1 = h2 := by decide

lemma dlookup_cons {α β : Type} [DecidableEq α] (k a1 : α) (a2 : β)
    (t : List (α × β)) :
    dlookup k ((a1, a2) :: t) = if a1 = k then some a2 else dlookup k t := rfl

lemma dlookup_map_replaceKey {α β : Type} [DecidableEq α]
    (d : List (α × β)) (k k' : α) (v : β) (hne : k' ≠ k) :
    dlookup k' (d.map fun p => if p.1 = k then (k, v) else p) = dlookup k' d := by
  induction d with
  | nil => rfl
  | cons a t ih =>
    obtain ⟨a1, a2⟩ := a
    rw [List.map_cons]
    by_cases ha : a1 = k
    · have hf : (if (a1, a2).1 = k then (k, v) else (a1, a2)) = (k, v) := by
        simp [ha]
      rw [hf, dlookup_cons, dlookup_cons, if_neg fun hc => hne hc.symm,
        if_neg fun hc => hne (ha ▸ hc).symm, ih]
    · have hf : (if (a1, a2).1 = k then (k, v) else (a1, a2)) = (a1, a2) := by
        simp [ha]
      rw [hf, dlookup_cons, dlookup_cons, ih]

lemma dlookup_append {α β : Type} [DecidableEq α]
    (d₁ d₂ : List (α × β)) (k : α) :
    dlookup k (d₁ ++ d₂) = (dlookup k d₁).or (dlookup k d₂) := by
  induction d₁ with
  | nil => rfl
  | cons a t ih =>
    obtain ⟨a1, a2⟩ := a
    rw [List.cons_append, dlookup_cons, dlookup_cons]
    by_cases ha : a1 = k
    · rw [if_pos ha, if_pos ha]; rfl
    · rw [if_neg ha, if_neg ha, ih]

lemma dlookup_dinsert_self {α β : Type} [DecidableEq α]
    (d : List (α × β)) (k : α) (v : β) :
    dlookup k (dinsert d k v) = some v := by
  unfold dinsert
  split_ifs with h
  · induction d with
    | nil => simp [dlookup] at h
    | cons a t ih =>
      obtain ⟨a1, a2⟩ := a
      rw [List.map_cons]
      by_cases ha : a1 = k
      · have hf : (if (a1, a2).1 = k then (k, v) else (a1, a2)) = (k, v) := by
          simp [ha]
        rw [hf, dlookup_cons, if_pos rfl]
      · have hf : (if (a1, a2).1 = k then (k, v) else (a1, a2)) = (a1, a2) := by
          simp [ha]
        rw [hf, dlookup_cons, if_neg ha]
        rw [dlookup_cons, if_neg ha] at h
        exact ih h
  · rw [dlookup_append]
    have h2 : dlookup k d = none := by
      cases hl : dlookup k d with
      | none => rfl
      | some w => rw [hl] at h; simp at h
    rw [h2, dlookup_cons, if_pos rfl]
    rfl

lemma dlookup_dinsert_other {α β : Type} [DecidableEq α]
    (d : List (α × β)) (k k' : α) (v : β) (hne : k' ≠ k) :
    dlookup k' (dinsert d k v) = dlookup k' d := by
  unfold dinsert
  split_ifs with h
  · exact dlookup_map_replaceKey d k k' v hne
  · rw [dlookup_append, dlookup_cons, if_neg fun hc => hne hc.symm]
    cases dlookup k' d <;> rfl
lemma localHour_lt (u : Nat) : localHour u < 24 := Nat.mod_lt _ (by omega)

lemma buildPriceTagsGen_cons (hourOf : Nat → Nat) (tomorrow : Bool)
    (e : Nat × ℚ) (rest : List (Nat × ℚ)) (acc : List (String × ℚ)) :
    buildPriceTagsGen hourOf tomorrow (e :: rest) acc =
      buildPriceTagsGen hourOf tomorrow rest
        (dinsert acc
          (if (dlookup (priceTagKey tomorrow (hourOf e.1)) acc).isSome
           then priceTagKey tomorrow (hourOf e.1) ++ "_d"
           else priceTagKey tomorrow (hourOf e.1)) e.2) := rfl

lemma buildTags_frame (hourOf : Nat → Nat) (tomorrow : Bool) (h : Nat) (hlt : h < 24) :
    ∀ (l : List (Nat × ℚ)) (acc : List (String × ℚ)),
    (∀ e ∈ l, hourOf e.1 < 24) →
    l.filter (fun e => hourOf e.1 = h) = [] →
    dlookup (priceTagKey tomorrow h) (buildPriceTagsGen hourOf tomorrow l acc) =
      dlookup (priceTagKey tomorrow h) acc ∧
    dlookup (priceTagKey tomorrow h ++ "_d") (buildPriceTagsGen hourOf tomorrow l acc) =
      dlookup (priceTagKey tomorrow h ++ "_d") acc := by
  intro l
  induction l with
  | nil => intro acc _ _; exact ⟨rfl, rfl⟩
  | cons e rest ih =>
    intro acc hb hf
    have he : ¬ hourOf e.1 = h := by
      intro hc
      simp [List.filter_cons, hc] at hf
    rw [List.filter_cons, if_neg (by simp [he])] at hf
    rw [buildPriceTagsGen_cons]
    have hlt' : hourOf e.1 < 24 := hb e (by simp)
    set attrKey := (if (dlookup (priceTagKey tomorrow (hourOf e.1)) acc).isSome
       then priceTagKey tomorrow (hourOf e.1) ++ "_d"
       else priceTagKey tomorrow (hourOf e.1)) with hak
    have hne1 : priceTagKey tomorrow h ≠ attrKey := by
      rw [hak]
      split_ifs
      · exact priceTagKey_ne_dsuffix tomorrow h hlt (hourOf e.1) hlt'
      · exact fun hc => he (priceTagKey_inj tomorrow (hourOf e.1) hlt' h hlt hc.symm)
    have hne2 : priceTagKey tomorrow h ++ "_d" ≠ attrKey := by
      rw [hak]
      split_ifs
      · exact fun hc => he (priceTagKey_dsuffix_inj tomorrow (hourOf e.1) hlt' h hlt hc.symm)
      · exact fun hc => priceTagKey_ne_dsuffix tomorrow (hourOf e.1) hlt' h hlt hc.symm
    obtain ⟨ih1, ih2⟩ := ih (dinsert acc attrKey e.2) (fun x hx => hb x (by simp [hx])) hf
    exact ⟨ih1.trans (dlookup_dinsert_other _ _ _ _ hne1),
      ih2.trans (dlookup_dinsert_other _ _ _ _ hne2)⟩

lemma buildTags_after_first (hourOf : Nat → Nat) (tomorrow : Bool) (h : Nat)
    (hlt : h < 24) :
    ∀ (l : List (Nat × ℚ)) (acc : List (String × ℚ)) (t2 : Nat) (v1 v2 : ℚ),
    (∀ e ∈ l, hourOf e.1 < 24) →
    l.filter (fun e => hourOf e.1 = h) = [(t2, v2)] →
    dlookup (priceTagKey tomorrow h) acc = some v1 →
    dlookup (priceTagKey tomorrow h ++ "_d") acc = none →
    dlookup (priceTagKey tomorrow h) (buildPriceTagsGen hourOf tomorrow l acc) = some v1 ∧
    dlookup (priceTagKey tomorrow h ++ "_d") (buildPriceTagsGen hourOf tomorrow l acc) =
      some v2 := by
  intro l
  induction l with
  | nil => intro acc t2 v1 v2 _ hf _ _; simp at hf
  | cons e rest ih =>
    intro acc t2 v1 v2 hb hf h1 h2
    have hlt' : hourOf e.1 < 24 := hb e (by simp)
    by_cases he : hourOf e.1 = h
    · rw [List.filter_cons, if_pos (by simp [he])] at hf
      rw [List.cons_eq_cons] at hf
      obtain ⟨he2, hf2⟩ := hf
      subst he2
      rw [buildPriceTagsGen_cons]
      have hkey : priceTagKey tomorrow (hourOf (t2, v2).1) = priceTagKey tomorrow h := by
        rw [he]
      rw [hkey, h1]
      simp only [Option.isSome_some, if_true]
      have hkhd : priceTagKey tomorrow h ≠ priceTagKey tomorrow h ++ "_d" :=
        priceTagKey_ne_dsuffix tomorrow h hlt h hlt
      obtain ⟨hr1, hr2⟩ := buildTags_frame hourOf tomorrow h hlt rest
        (dinsert acc (priceTagKey tomorrow h ++ "_d") (t2, v2).2)
        (fun x hx => hb x (by simp [hx])) hf2
      refine ⟨hr1.trans ?_, hr2.trans ?_⟩
      · rw [dlookup_dinsert_other _ _ _ _ hkhd]
        exact h1
      · exact dlookup_dinsert_self _ _ _
    · rw [List.filter_cons, if_neg (by simp [he])] at hf
      rw [buildPriceTagsGen_cons]
      set attrKey := (if (dlookup (priceTagKey tomorrow (hourOf e.1)) acc).isSome
         then priceTagKey tomorrow (hourOf e.1) ++ "_d"
         else priceTagKey tomorrow (hourOf e.1)) with hak
      have hne1 : priceTagKey tomorrow h ≠ attrKey := by
        rw [hak]
        split_ifs
        · exact priceTagKey_ne_dsuffix tomorrow h hlt (hourOf e.1) hlt'
        · exact fun hc => he (priceTagKey_inj tomorrow (hourOf e.1) hlt' h hlt hc.symm)
      have hne2 : priceTagKey tomorrow h ++ "_d" ≠ attrKey := by
        rw [hak]
        split_ifs
        · exact fun hc =>
            he (priceTagKey_dsuffix_inj tomorrow (hourOf e.1) hlt' h hlt hc.symm)
        · exact fun hc => priceTagKey_ne_dsuffix tomorrow (hourOf e.1) hlt' h hlt hc.symm
      exact ih (dinsert acc attrKey e.2) t2 v1 v2 (fun x hx => hb x (by simp [hx])) hf
        ((dlookup_dinsert_other _ _ _ _ hne1).trans h1)
        ((dlookup_dinsert_other _ _ _ _ hne2).trans h2)

lemma buildTags_two (hourOf : Nat → Nat) (tomorrow : Bool) (h : Nat) (hlt : h < 24) :
    ∀ (l : List (Nat × ℚ)) (acc : List (String × ℚ)) (t1 t2 : Nat) (v1 v2 : ℚ),
    (∀ e ∈ l, hourOf e.1 < 24) →
    l.filter (fun e => hourOf e.1 = h) = [(t1, v1), (t2, v2)] →
    dlookup (priceTagKey tomorrow h) acc = none →
    dlookup (priceTagKey tomorrow h ++ "_d") acc = none →
    dlookup (priceTagKey tomorrow h) (buildPriceTagsGen hourOf tomorrow l acc) = some v1 ∧
    dlookup (priceTagKey tomorrow h ++ "_d") (buildPriceTagsGen hourOf tomorrow l acc) =
      some v2 := by
  intro l
  induction l with
  | nil => intro acc t1 t2 v1 v2 _ hf _ _; simp at hf
  | cons e rest ih =>
    intro acc t1 t2 v1 v2 hb hf h1 h2
    have hlt' : hourOf e.1 < 24 := hb e (by simp)
    by_cases he : hourOf e.1 = h
    · rw [List.filter_cons, if_pos (by simp [he])] at hf
      rw [List.cons_eq_cons] at hf
      obtain ⟨he2, hf2⟩ := hf
      subst he2
      rw [buildPriceTagsGen_cons]
      have hkey : priceTagKey tomorrow (hourOf (t1, v1).1) = priceTagKey tomorrow h := by
        rw [he]
      rw [hkey, h1]
      simp only [Option.isSome_none, if_false]
      exact buildTags_after_first hourOf tomorrow h hlt rest
        (dinsert acc (priceTagKey tomorrow h) (t1, v1).2) t2 v1 v2
        (fun x hx => hb x (by simp [hx])) hf2
        (dlookup_dinsert_self _ _ _)
        ((dlookup_dinsert_other _ _ _ _
          (Ne.symm (priceTagKey_ne_dsuffix tomorrow h hlt h hlt))).trans h2)
    · rw [List.filter_cons, if_neg (by simp [he])] at hf
      rw [buildPriceTagsGen_cons]
      set attrKey := (if (dlookup (priceTagKey tomorrow (hourOf e.1)) acc).isSome
         then priceTagKey tomorrow (hourOf e.1) ++ "_d"
         else priceTagKey tomorrow (hourOf e.1)) with hak
      have hne1 : priceTagKey tomorrow h ≠ attrKey := by
        rw [hak]
        split_ifs
        · exact priceTagKey_ne_dsuffix tomorrow h hlt (hourOf e.1) hlt'
        · exact fun hc => he (priceTagKey_inj tomorrow (hourOf e.1) hlt' h hlt hc.symm)
      have hne2 : priceTagKey tomorrow h ++ "_d" ≠ attrKey := by
        rw [hak]
        split_ifs
        · exact fun hc =>
            he (priceTagKey_dsuffix_inj tomorrow (hourOf e.1) hlt' h hlt hc.symm)
        · exact fun hc => priceTagKey_ne_dsuffix tomorrow (hourOf e.1) hlt' h hlt hc.symm
      exact ih (dinsert acc attrKey e.2) t1 t2 v1 v2 (fun x hx => hb x (by simp [hx])) hf
        ((dlookup_dinsert_other _ _ _ _ hne1).trans h1)
        ((dlookup_dinsert_other _ _ _ _ hne2).trans h2)
/-- C9: when a price window holds exactly two entries mapping to the same
local wall-clock hour (the DST fall-back duplicated hour), the per-hour
attribute map keeps two distinct keys, the second carrying the `"_d"`
suffix, with both prices preserved. -/
theorem C9_dst_duplicated_hour (prices : List (Nat × ℚ)) (tomorrow : Bool)
    (h t1 t2 : Nat) (v1 v2 : ℚ)
    (hfilter : prices.filter (fun e => localHour e.1 = h) = [(t1, v1), (t2, v2)]) :
    priceTagKey tomorrow h ≠ priceTagKey tomorrow h ++ "_d" ∧
    dlookup (priceTagKey tomorrow h) (makePriceTagAttributes prices tomorrow) =
      some v1 ∧
    dlookup (priceTagKey tomorrow h ++ "_d") (makePriceTagAttributes prices tomorrow) =
      some v2 := by
  have hmem : (t1, v1) ∈ prices.filter (fun e => localHour e.1 = h) := by
    rw [hfilter]; simp
  have hlt : h < 24 := by
    rw [List.mem_filter] at hmem
    have := hmem.2
    simp only [decide_eq_true_eq] at this
    rw [← this]
    exact localHour_lt t1
  obtain ⟨g1, g2⟩ := buildTags_two localHour tomorrow h hlt prices [] t1 t2 v1 v2
    (fun e _ => localHour_lt e.1) hfilter rfl rfl
  exact ⟨priceTagKey_ne_dsuffix tomorrow h hlt h hlt, g1, g2⟩

/-- C9 witness: the 2021-10-31 fall-back transition; UTC 00:00 and 01:00
both map to local hour 02. -/
theorem C9_witness :
    ([(daysFromCivil 2021 10 31 * 24, (1 : ℚ)),
      (daysFromCivil 2021 10 31 * 24 + 1, (2 : ℚ))].filter
        (fun e => localHour e.1 = 2) =
      [(daysFromCivil 2021 10 31 * 24, (1 : ℚ)),
       (daysFromCivil 2021 10 31 * 24 + 1, (2 : ℚ))]) ∧
    priceTagKey false 2 ≠ priceTagKey false 2 ++ "_d" ∧
    dlookup (priceTagKey false 2)
      (makePriceTagAttributes
        [(daysFromCivil 2021 10 31 * 24, (1 : ℚ)),
         (daysFromCivil 2021 10 31 * 24 + 1, (2 : ℚ))] false) = some ((1 : ℚ)) ∧
    dlookup (priceTagKey false 2 ++ "_d")
      (makePriceTagAttributes
        [(daysFromCivil 2021 10 31 * 24, (1 : ℚ)),
         (daysFromCivil 2021 10 31 * 24 + 1, (2 : ℚ))] false) = some ((2 : ℚ)) :=
  ⟨by decide,
   C9_dst_duplicated_hour
     [(daysFromCivil 2021 10 31 * 24, (1 : ℚ)),
      (daysFromCivil 2021 10 31 * 24 + 1, (2 : ℚ))] false 2
     (daysFromCivil 2021 10 31 * 24) (daysFromCivil 2021 10 31 * 24 + 1)
     1 2 (by decide)⟩

/-! ### Claim C7: min/max price statistics -/

lemma foldl_min_le (t : List ℚ) : ∀ b : ℚ, t.foldl min b ≤ b ∧ ∀ v ∈ t, t.foldl min b ≤ v := by
  induction t with
  | nil => intro b; exact ⟨le_rfl, by simp⟩
  | cons a t' ih =>
    intro b
    rw [List.foldl_cons]
    obtain ⟨h1, h2⟩ := ih (min b a)
    refine ⟨h1.trans (min_le_left _ _), ?_⟩
    intro v hv
    rcases List.mem_cons.mp hv with h | h
    · exact h ▸ h1.trans (min_le_right _ _)
    · exact h2 v h

lemma foldl_min_mem (t : List ℚ) : ∀ b : ℚ, t.foldl min b = b ∨ t.foldl min b ∈ t := by
  induction t with
  | nil => intro b; exact Or.inl rfl
  | cons a t' ih =>
    intro b
    rw [List.foldl_cons]
    rcases ih (min b a) with h | h
    · rcases min_choice b a with hc | hc
      · exact Or.inl (h.trans hc)
      · exact Or.inr (List.mem_cons.mpr (Or.inl (h.trans hc)))
    · exact Or.inr (List.mem_cons.mpr (Or.inr h))

lemma minValue_le (l : List ℚ) : ∀ v ∈ l, minValue l ≤ v := by
  cases l with
  | nil => simp
  | cons a t =>
    intro v hv
    rcases List.mem_cons.mp hv with h | h
    · exact h ▸ (foldl_min_le t a).1
    · exact (foldl_min_le t a).2 v h

lemma minValue_mem (l : List ℚ) (h : l ≠ []) : minValue l ∈ l := by
  cases l with
  | nil => exact absurd rfl h
  | cons a t =>
    rcases foldl_min_mem t a with hc | hc
    · exact List.mem_cons.mpr (Or.inl hc)
    · exact List.mem_cons.mpr (Or.inr hc)

lemma foldl_max_le (t : List ℚ) : ∀ b : ℚ, b ≤ t.foldl max b ∧ ∀ v ∈ t, v ≤ t.foldl max b := by
  induction t with
  | nil => intro b; exact ⟨le_rfl, by simp⟩
  | cons a t' ih =>
    intro b
    rw [List.foldl_cons]
    obtain ⟨h1, h2⟩ := ih (max b a)
    refine ⟨(le_max_left _ _).trans h1, ?_⟩
    intro v hv
    rcases List.mem_cons.mp hv with h | h
    · subst h; exact (le_max_right _ _).trans h1
    · exact h2 v h

lemma foldl_max_mem (t : List ℚ) : ∀ b : ℚ, t.foldl max b = b ∨ t.foldl max b ∈ t := by
  induction t with
  | nil => intro b; exact Or.inl rfl
  | cons a t' ih =>
    intro b
    rw [List.foldl_cons]
    rcases ih (max b a) with h | h
    · rcases max_choice b a with hc | hc
      · exact Or.inl (h.trans hc)
      · exact Or.inr (List.mem_cons.mpr (Or.inl (h.trans hc)))
    · exact Or.inr (List.mem_cons.mpr (Or.inr h))

lemma maxValue_le (l : List ℚ) : ∀ v ∈ l, v ≤ maxValue l := by
  cases l with
  | nil => simp
  | cons a t =>
    intro v hv
    rcases List.mem_cons.mp hv with h | h
    · rw [h]; exact (foldl_max_le t a).1
    · exact (foldl_max_le t a).2 v h

lemma maxValue_mem (l : List ℚ) (h : l ≠ []) : maxValue l ∈ l := by
  cases l with
  | nil => exact absurd rfl h
  | cons a t =>
    rcases foldl_max_mem t a with hc | hc
    · exact List.mem_cons.mpr (Or.inl hc)
    · exact List.mem_cons.mpr (Or.inr hc)

lemma headD_mem {α : Type} (l : List α) (d : α) (h : l ≠ []) : l.headD d ∈ l := by
  cases l with
  | nil => exact absurd rfl h
  | cons a t => simp

lemma getLastD_mem {α : Type} : ∀ (l : List α) (d : α), l ≠ [] → l.getLastD d ∈ l := by
  intro l
  induction l with
  | nil => intro d h; exact absurd rfl h
  | cons a t ih =>
    intro d _
    rw [List.getLastD_cons]
    cases t with
    | nil => simp [List.getLastD]
    | cons b t' => exact List.mem_cons_of_mem a (ih a (by simp))

lemma sorted_headD_rel {α : Type} {r : α → α → Prop} (hrefl : ∀ a, r a a)
    (l : List α) (d : α) (hs : l.Sorted r) : ∀ x ∈ l, r (l.headD d) x := by
  intro x hx
  cases l with
  | nil => simp at hx
  | cons a t =>
    rw [List.headD_cons]
    rcases List.mem_cons.mp hx with h | h
    · exact h ▸ hrefl a
    · exact (List.sorted_cons.mp hs).1 x h

lemma sorted_rel_getLastD {α : Type} {r : α → α → Prop} (hrefl : ∀ a, r a a) :
    ∀ (l : List α) (d : α), l.Sorted r → ∀ x ∈ l, r x (l.getLastD d) := by
  intro l
  induction l with
  | nil => intro d _ x hx; simp at hx
  | cons a t ih =>
    intro d hs x hx
    rw [List.getLastD_cons]
    obtain ⟨ha, hst⟩ := List.sorted_cons.mp hs
    cases t with
    | nil =>
      simp only [List.mem_singleton] at hx
      subst hx
      simpa [List.getLastD] using hrefl x
    | cons b t' =>
      rcases List.mem_cons.mp hx with h | h
      · exact h ▸ ha _ (getLastD_mem (b :: t') a (by simp))
      · exact ih a hst x h
lemma insertionSort_headD_best (sign : ℚ) (prices : List (Nat × ℚ)) (hne : prices ≠ []) :
    ((List.insertionSort (priceLe sign) prices).headD (0, 0)) ∈ prices ∧
    ∀ e ∈ prices,
      sign * ((List.insertionSort (priceLe sign) prices).headD (0, 0)).2 ≤ sign * e.2 := by
  have hperm := List.perm_insertionSort (priceLe sign) prices
  have hsort := List.sorted_insertionSort (priceLe sign) prices
  have hne' : List.insertionSort (priceLe sign) prices ≠ [] := by
    intro h
    rw [h] at hperm
    exact hne hperm.nil_eq.symm
  constructor
  · exact hperm.mem_iff.mp (headD_mem _ _ hne')
  · intro e he
    exact sorted_headD_rel (r := priceLe sign) (fun a => le_refl (sign * a.2))
      (List.insertionSort (priceLe sign) prices) (0, 0) hsort e (hperm.mem_iff.mpr he)

lemma insertionSort_getLastD_worst (sign : ℚ) (prices : List (Nat × ℚ)) (hne : prices ≠ []) :
    ((List.insertionSort (priceLe sign) prices).getLastD (0, 0)) ∈ prices ∧
    ∀ e ∈ prices,
      sign * e.2 ≤ sign * ((List.insertionSort (priceLe sign) prices).getLastD (0, 0)).2 := by
  have hperm := List.perm_insertionSort (priceLe sign) prices
  have hsort := List.sorted_insertionSort (priceLe sign) prices
  have hne' : List.insertionSort (priceLe sign) prices ≠ [] := by
    intro h
    rw [h] at hperm
    exact hne hperm.nil_eq.symm
  constructor
  · exact hperm.mem_iff.mp (getLastD_mem _ _ hne')
  · intro e he
    exact sorted_rel_getLastD (r := priceLe sign) (fun a => le_refl (sign * a.2))
      (List.insertionSort (priceLe sign) prices) (0, 0) hsort e (hperm.mem_iff.mpr he)

lemma stats_min_price (sensorKey : String) (currentPrice : ℚ)
    (prices : List (Nat × ℚ)) (utcTime : Nat) :
    (makePriceStatsAttributes sensorKey currentPrice prices utcTime).min_price =
      minValue (prices.map Prod.snd) := rfl

lemma stats_max_price (sensorKey : String) (currentPrice : ℚ)
    (prices : List (Nat × ℚ)) (utcTime : Nat) :
    (makePriceStatsAttributes sensorKey currentPrice prices utcTime).max_price =
      maxValue (prices.map Prod.snd) := rfl

lemma stats_min_price_at (sensorKey : String) (currentPrice : ℚ)
    (prices : List (Nat × ℚ)) (utcTime : Nat) :
    (makePriceStatsAttributes sensorKey currentPrice prices utcTime).min_price_at =
      (if (if sensorKey ≠ KEY_INJECTION then (1 : ℚ) else -1) = 1 then
        localHour ((List.insertionSort
          (priceLe (if sensorKey ≠ KEY_INJECTION then (1 : ℚ) else -1)) prices).headD
            (0, 0)).1
      else
        localHour ((List.insertionSort
          (priceLe (if sensorKey ≠ KEY_INJECTION then (1 : ℚ) else -1)) prices).getLastD
            (0, 0)).1) := rfl

lemma stats_max_price_at (sensorKey : String) (currentPrice : ℚ)
    (prices : List (Nat × ℚ)) (utcTime : Nat) :
    (makePriceStatsAttributes sensorKey currentPrice prices utcTime).max_price_at =
      (if (if sensorKey ≠ KEY_INJECTION then (1 : ℚ) else -1) = 1 then
        localHour ((List.insertionSort
          (priceLe (if sensorKey ≠ KEY_INJECTION then (1 : ℚ) else -1)) prices).getLastD
            (0, 0)).1
      else
        localHour ((List.insertionSort
          (priceLe (if sensorKey ≠ KEY_INJECTION then (1 : ℚ) else -1)) prices).headD
            (0, 0)).1) := rfl
/-- C7: for any non-empty price window the generated `min_price` attribute
is the true minimum of the window's values, `max_price` the true maximum,
and the hours reported as `min_price_at` / `max_price_at` come from
entries of the window whose prices equal those extremes, for either
ranking sign. -/
theorem C7_min_max_prices (sensorKey : String) (currentPrice : ℚ)
    (prices : List (Nat × ℚ)) (utcTime : Nat) (hne : prices ≠ []) :
    ∀ s, s = makePriceStatsAttributes sensorKey currentPrice prices utcTime →
      (∀ e ∈ prices, s.min_price ≤ e.2 ∧ e.2 ≤ s.max_price) ∧
      (∃ e ∈ prices, e.2 = s.min_price) ∧
      (∃ e ∈ prices, e.2 = s.max_price) ∧
      (∃ e ∈ prices, localHour e.1 = s.min_price_at ∧ e.2 = s.min_price) ∧
      (∃ e ∈ prices, localHour e.1 = s.max_price_at ∧ e.2 = s.max_price) := by
  intro s hs
  subst hs
  rw [stats_min_price, stats_max_price, stats_min_price_at, stats_max_price_at]
  have hvne : prices.map Prod.snd ≠ [] := by
    intro h
    exact hne (List.map_eq_nil_iff.mp h)
  have hminmem : ∃ e ∈ prices, e.2 = minValue (prices.map Prod.snd) := by
    obtain ⟨e, he, hv⟩ := List.mem_map.mp (minValue_mem _ hvne)
    exact ⟨e, he, hv⟩
  have hmaxmem : ∃ e ∈ prices, e.2 = maxValue (prices.map Prod.snd) := by
    obtain ⟨e, he, hv⟩ := List.mem_map.mp (maxValue_mem _ hvne)
    exact ⟨e, he, hv⟩
  have hminle : ∀ e ∈ prices, minValue (prices.map Prod.snd) ≤ e.2 :=
    fun e he => minValue_le _ _ (List.mem_map_of_mem _ he)
  have hmaxle : ∀ e ∈ prices, e.2 ≤ maxValue (prices.map Prod.snd) :=
    fun e he => maxValue_le _ _ (List.mem_map_of_mem _ he)
  refine ⟨fun e he => ⟨hminle e he, hmaxle e he⟩, hminmem, hmaxmem, ?_, ?_⟩ <;>
    by_cases hks : sensorKey ≠ KEY_INJECTION
  · -- min_price_at, peninsula-style sign = 1: first of the ascending sort
    rw [if_pos hks, if_pos rfl]
    obtain ⟨hhmem, hhle⟩ := insertionSort_headD_best 1 prices hne
    refine ⟨_, hhmem, rfl, ?_⟩
    refine le_antisymm ?_ (hminle _ hhmem)
    obtain ⟨e, he, hv⟩ := hminmem
    rw [← hv]
    simpa using hhle e he
  · -- min_price_at, injection sign = -1: last of the descending sort
    rw [if_neg hks, if_neg (by norm_num)]
    obtain ⟨hlmem, hlle⟩ := insertionSort_getLastD_worst (-1) prices hne
    refine ⟨_, hlmem, rfl, ?_⟩
    refine le_antisymm ?_ (hminle _ hlmem)
    obtain ⟨e, he, hv⟩ := hminmem
    rw [← hv]
    have := hlle e he
    linarith
  · -- max_price_at, sign = 1: last of the ascending sort
    rw [if_pos hks, if_pos rfl]
    obtain ⟨hlmem, hlle⟩ := insertionSort_getLastD_worst 1 prices hne
    refine ⟨_, hlmem, rfl, ?_⟩
    refine le_antisymm (hmaxle _ hlmem) ?_
    obtain ⟨e, he, hv⟩ := hmaxmem
    rw [← hv]
    simpa using hlle e he
  · -- max_price_at, sign = -1: first of the descending sort
    rw [if_neg hks, if_neg (by norm_num)]
    obtain ⟨hhmem, hhle⟩ := insertionSort_headD_best (-1) prices hne
    refine ⟨_, hhmem, rfl, ?_⟩
    refine le_antisymm (hmaxle _ hhmem) ?_
    obtain ⟨e, he, hv⟩ := hmaxmem
    rw [← hv]
    have := hhle e he
    linarith

/-- C7 witness: a two-entry window, consumption-price ranking. -/
theorem C7_witness :
    ([((453000 : Nat), (5 : ℚ)), (453001, 3)] : List (Nat × ℚ)) ≠ [] ∧
    ((∀ e ∈ ([((453000 : Nat), (5 : ℚ)), (453001, 3)] : List (Nat × ℚ)),
        (makePriceStatsAttributes "PVPC" 5 [(453000, 5), (453001, 3)] 453000).min_price ≤ e.2 ∧
        e.2 ≤ (makePriceStatsAttributes "PVPC" 5 [(453000, 5), (453001, 3)] 453000).max_price) ∧
      (∃ e ∈ ([((453000 : Nat), (5 : ℚ)), (453001, 3)] : List (Nat × ℚ)),
        e.2 = (makePriceStatsAttributes "PVPC" 5 [(453000, 5), (453001, 3)] 453000).min_price) ∧
      (∃ e ∈ ([((453000 : Nat), (5 : ℚ)), (453001, 3)] : List (Nat × ℚ)),
        e.2 = (makePriceStatsAttributes "PVPC" 5 [(453000, 5), (453001, 3)] 453000).max_price) ∧
      (∃ e ∈ ([((453000 : Nat), (5 : ℚ)), (453001, 3)] : List (Nat × ℚ)),
        localHour e.1 =
          (makePriceStatsAttributes "PVPC" 5 [(453000, 5), (453001, 3)] 453000).min_price_at ∧
        e.2 = (makePriceStatsAttributes "PVPC" 5 [(453000, 5), (453001, 3)] 453000).min_price) ∧
      (∃ e ∈ ([((453000 : Nat), (5 : ℚ)), (453001, 3)] : List (Nat × ℚ)),
        localHour e.1 =
          (makePriceStatsAttributes "PVPC" 5 [(453000, 5), (453001, 3)] 453000).max_price_at ∧
        e.2 = (makePriceStatsAttributes "PVPC" 5 [(453000, 5), (453001, 3)] 453000).max_price)) :=
  ⟨by decide,
   C7_min_max_prices "PVPC" 5 [(453000, 5), (453001, 3)] 453000 (by decide)
     (makePriceStatsAttributes "PVPC" 5 [(453000, 5), (453001, 3)] 453000) rfl⟩

/-! ### Download, update scheduler and state processing (`pvpc_data.py`) -/

/-- The possible outcomes of one remote request inside
`_download_pvpc_prices`: a parsed payload, an HTTP error status (≥ 400,
including the logged 403 branch), a `KeyError` from the payload parser, a
timeout, or a transport error. -/
inductive FetchOutcome where
  | success (prices : List (Nat × ℚ))
  | httpError (status : Nat)
  | malformedPayload
  | timeout
  | clientError

/-- Whether the outcome is one of the absorbed failure modes. -/
def FetchOutcome.isFailure : FetchOutcome → Bool
  | .success _ => false
  | _ => true

/-- `_download_pvpc_prices(day)`: every failure branch is caught (or falls
through) and yields the empty dict — no exception escapes. -/
def downloadPvpcPrices : FetchOutcome → List (Nat × ℚ)
  | .success prices => prices
  | _ => []

/-- The result of one `async_update_prices` cycle: the new
`self._current_prices`, the returned dict, and the days fetched (in call
order). -/
structure UpdateResult where
  currentPrices : List (Nat × ℚ)
  returned : List (Nat × ℚ)
  fetchedDays : List Nat

/-- `async_update_prices(now)`: fetch "today" (local Europe/Madrid date);
on an empty result return it unchanged; at local hour ≥ 20 additionally
fetch the next day and merge a non-empty result; then merge into the
cached series.  `fetch` is the per-day remote outcome. -/
def asyncUpdatePrices (fetch : Nat → FetchOutcome)
    (currentPrices : List (Nat × ℚ)) (utcNow : Nat) : UpdateResult :=
  let localRefNow := localOfUtc utcNow
  let today := localRefNow / 24
  let prices := downloadPvpcPrices (fetch today)
  if prices = [] then
    { currentPrices := currentPrices, returned := [], fetchedDays := [today] }
  else if 20 ≤ localRefNow % 24 then
    let pricesFut := downloadPvpcPrices (fetch (today + 1))
    let prices2 := if pricesFut = [] then prices else dupdate prices pricesFut
    { currentPrices := dupdate currentPrices prices2
      returned := prices2
      fetchedDays := [today, today + 1] }
  else
    { currentPrices := dupdate currentPrices prices
      returned := prices
      fetchedDays := [today] }

/-- The prune cutoff of `process_state_and_attributes`:
`utc_time.astimezone(REFERENCE_TZ).replace(hour=0).astimezone(UTC_TZ)`,
i.e. the UTC instant of local midnight of the reference local day. -/
def pruneCutoff (utcTime : Nat) : Nat := utcFromLocalMidnight (localDay utcTime)

/-- The prune step of `process_state_and_attributes`: when the series
holds more than 25 points and the local hour is before 20, keep only the
entries at or after local midnight of the reference day. -/
def applyPrune (currentPrices : List (Nat × ℚ)) (utcTime : Nat) :
    List (Nat × ℚ) :=
  if 25 < currentPrices.length ∧ localHour utcTime < 20 then
    currentPrices.filter fun e => pruneCutoff utcTime ≤ e.1
  else currentPrices

/-- The earliest key of a (non-empty) series; 0 on the empty one. -/
def minKey : List (Nat × ℚ) → Nat
  | [] => 0
  | e :: t => t.foldl (fun m e' => min m e'.1) e.1

/-- The `ATTRIBUTION` constant. -/
def ATTRIBUTION : String := "Data retrieved from api.esios.ree.es by REE"

/-- `DATE_CHANGE_TO_20TD = date(2021, 6, 1)` as a day count. -/
def dateChangeTo20TD : Nat := daysFromCivil 2021 6 1

/-- `_tariff_period_key` of `pvpc_data.py`: same branch logic as the
table-driven variant, but the holiday test is the external
`holidays.Spain` library, injected as a total per-day predicate. -/
def tariffPeriodKeyHol (holidaySpain : Nat → Bool) (localTs : Nat)
    (zoneCeutaMelilla : Bool) : String :=
  if holidaySpain (localTs / 24) ∨ 6 ≤ isoWeekday (localTs / 24) ∨
      localTs % 24 < 8 then "P3"
  else if zoneCeutaMelilla ∧ (localTs % 24) ∈ hoursP2CYM then "P2"
  else if ¬zoneCeutaMelilla ∧ (localTs % 24) ∈ hoursP2 then "P2"
  else "P1"

/-- `_get_current_and_next_tariff_periods` of `pvpc_data.py`, through the
same fuelled walk (the per-hour function is total here). -/
def getCurrentAndNextTariffPeriodsHol (holidaySpain : Nat → Bool)
    (localTs : Nat) (zoneCeutaMelilla : Bool) (fuel : Nat) :
    Option (String × String × Nat) :=
  (nextPeriodWalkGen (fun t => some (tariffPeriodKeyHol holidaySpain t zoneCeutaMelilla))
      localTs (tariffPeriodKeyHol holidaySpain localTs zoneCeutaMelilla) fuel 1).map
    fun pk => (tariffPeriodKeyHol holidaySpain localTs zoneCeutaMelilla, pk.1, pk.2)

/-- The tag loop of `_make_sensor_attributes` (`pvpc_data.py` flavour),
generic in the key function: one shared dict for today and next-day tags,
with the `"_d"` dedup suffix. -/
def buildTagsKeyGen (keyOf : Nat → String) :
    List (Nat × ℚ) → List (String × ℚ) → List (String × ℚ)
  | [], attributes => attributes
  | e :: rest, attributes =>
    let key0 := keyOf e.1
    let attrKey := if (dlookup key0 attributes).isSome then key0 ++ "_d" else key0
    buildTagsKeyGen keyOf rest (dinsert attributes attrKey e.2)

/-- The non-base sensor attributes built by `_make_sensor_attributes`:
tariff-period fields (`none` when the fuelled walk gives up), the price
statistics (the inline pvpc_data code equals the "lower is better"
specialization), and the hour tags. -/
structure SensorAttrs where
  periodInfo : Option (String × String × Nat)
  availablePower : Option Nat
  stats : PriceStats
  tags : List (String × ℚ)

/-- `_make_sensor_attributes(current_prices, utc_time, timezone,
zone_ceuta_melilla, power, power_valley)`. -/
def makeSensorAttributes (holidaySpain : Nat → Bool)
    (currentPrices : List (Nat × ℚ)) (utcTime : Nat) (zoneCeutaMelilla : Bool)
    (power powerValley : Nat) : SensorAttrs :=
  let localTime := localOfUtc utcTime
  let periods := getCurrentAndNextTariffPeriodsHol holidaySpain localTime
    zoneCeutaMelilla 8760
  { periodInfo := periods
    availablePower := periods.map fun p => if p.1 = "P3" then powerValley else power
    stats := makePriceStatsAttributes "PVPC" ((dlookup utcTime currentPrices).getD 0)
      currentPrices utcTime
    tags := buildTagsKeyGen
      (fun t => priceTagKey (isTomorrowPrice (localOfUtc t) (localOfUtc utcTime))
        (localHour t))
      currentPrices [] }

/-- The attribute map of a `PVPCData` instance: either just the base
`attribution`/`tariff` entries, or the base plus the sensor attributes. -/
inductive Attributes where
  | base (attribution : String) (tariff : Option String)
  | full (attribution : String) (tariff : Option String) (attrs : SensorAttrs)

/-- The mutable fields of `PVPCData` touched by
`process_state_and_attributes`. -/
structure PVPCState where
  state : Option ℚ
  stateAvailable : Bool
  attributes : Attributes
  currentPrices : List (Nat × ℚ)

/-- `process_state_and_attributes(utc_now)`: select the tariff by date,
prune, look the (hour-truncated — instants are whole hours here)
reference instant up; on a missing key set unavailability and the base
attributes and return `False`, else set the state and the full attributes
and return `True`. -/
def processStateAndAttributes (holidaySpain : Nat → Bool)
    (tariff tariffOld : Option String) (zoneCeutaMelilla : Bool)
    (power powerValley : Nat) (s : PVPCState) (utcNow : Nat) :
    PVPCState × Bool :=
  let tariffUsed := if utcNow / 24 < dateChangeTo20TD then tariffOld else tariff
  let pruned := applyPrune s.currentPrices utcNow
  (dlookup utcNow pruned).elim
    ({ s with currentPrices := pruned
              stateAvailable := false
              attributes := .base ATTRIBUTION tariffUsed }, false)
    fun price =>
      ({ s with currentPrices := pruned
                state := some price
                stateAvailable := true
                attributes := .full ATTRIBUTION tariffUsed
                  (makeSensorAttributes holidaySpain pruned utcNow zoneCeutaMelilla
                    power powerValley) }, true)

/-! ### Claims C1, C2, C3, C10: cache pruning, scheduler and state processing -/

/-- C3 (amended): every absorbed failure of `_download_pvpc_prices` yields
the empty dict (no exception escapes), and an update cycle whose *today*
fetch is empty/failed leaves the cached series exactly as it was and
returns the empty dict.  (A failed tomorrow fetch merely contributes
nothing: see the counterexample.) -/
theorem C3_failed_fetch_no_update :
    (∀ fo : FetchOutcome, fo.isFailure = true → downloadPvpcPrices fo = []) ∧
    (∀ (fetch : Nat → FetchOutcome) (cache : List (Nat × ℚ)) (u : Nat),
      downloadPvpcPrices (fetch (localOfUtc u / 24)) = [] →
      (asyncUpdatePrices fetch cache u).currentPrices = cache ∧
      (asyncUpdatePrices fetch cache u).returned = []) := by
  constructor
  · intro fo h
    cases fo with
    | success prices => simp [FetchOutcome.isFailure] at h
    | httpError status => rfl
    | malformedPayload => rfl
    | timeout => rfl
    | clientError => rfl
  · intro fetch cache u hp
    unfold asyncUpdatePrices
    simp [hp]

/-- C3 witness: a timed-out today fetch leaves a one-entry cache as is and
returns nothing. -/
theorem C3_witness :
    (FetchOutcome.timeout.isFailure = true ∧
      downloadPvpcPrices FetchOutcome.timeout = []) ∧
    (asyncUpdatePrices (fun _ => FetchOutcome.timeout) [(453000, (5 : ℚ))]
        (daysFromCivil 2021 6 2 * 24 + 10)).currentPrices = [(453000, (5 : ℚ))] ∧
    (asyncUpdatePrices (fun _ => FetchOutcome.timeout) [(453000, (5 : ℚ))]
        (daysFromCivil 2021 6 2 * 24 + 10)).returned = [] :=
  ⟨⟨rfl, C3_failed_fetch_no_update.1 FetchOutcome.timeout rfl⟩,
   C3_failed_fetch_no_update.2 (fun _ => FetchOutcome.timeout) [(453000, (5 : ℚ))]
     (daysFromCivil 2021 6 2 * 24 + 10) rfl⟩

/-- C3 counterexample: at local hour 20 with a successful today fetch and
a timed-out tomorrow fetch, a remote fetch of the cycle has failed yet the
cache is updated and the cycle returns data — the claim's "series left
exactly as before, empty result" does not hold for that cycle. -/
theorem C3_counterexample :
    ((fun d => if d = localDay (daysFromCivil 2021 6 2 * 24 + 18) then
        FetchOutcome.success [(daysFromCivil 2021 6 2 * 24 + 18, (1 : ℚ))]
      else FetchOutcome.timeout)
        (localDay (daysFromCivil 2021 6 2 * 24 + 18) + 1)).isFailure = true ∧
    20 ≤ localHour (daysFromCivil 2021 6 2 * 24 + 18) ∧
    (asyncUpdatePrices
      (fun d => if d = localDay (daysFromCivil 2021 6 2 * 24 + 18) then
        FetchOutcome.success [(daysFromCivil 2021 6 2 * 24 + 18, (1 : ℚ))]
      else FetchOutcome.timeout) [] (daysFromCivil 2021 6 2 * 24 + 18)).currentPrices ≠
        [] ∧
    (asyncUpdatePrices
      (fun d => if d = localDay (daysFromCivil 2021 6 2 * 24 + 18) then
        FetchOutcome.success [(daysFromCivil 2021 6 2 * 24 + 18, (1 : ℚ))]
      else FetchOutcome.timeout) [] (daysFromCivil 2021 6 2 * 24 + 18)).returned ≠ [] := by
  decide

lemma dlookup_filter_none {α β : Type} [DecidableEq α] (l : List (α × β))
    (p : α × β → Bool) (k : α) (h : dlookup k l = none) :
    dlookup k (l.filter p) = none := by
  induction l with
  | nil => rfl
  | cons a t ih =>
    obtain ⟨a1, a2⟩ := a
    rw [dlookup_cons] at h
    by_cases ha : a1 = k
    · rw [if_pos ha] at h; exact absurd h (by simp)
    · rw [if_neg ha] at h
      rw [List.filter_cons]
      split_ifs
      · rw [dlookup_cons, if_neg ha]; exact ih h
      · exact ih h

lemma dlookup_applyPrune_none (prices : List (Nat × ℚ)) (u k : Nat)
    (h : dlookup k prices = none) : dlookup k (applyPrune prices u) = none := by
  unfold applyPrune
  split_ifs
  · exact dlookup_filter_none _ _ _ h
  · exact h

/-- C10: when the reference instant is absent from the cached series
(including the empty-series case), `process_state_and_attributes` returns
`False`, clears the availability flag, resets the attributes to only the
base attribution/tariff entries, leaves the numeric state at its previous
(stale) value, and only prunes the series. -/
theorem C10_unavailable_frame (holidaySpain : Nat → Bool)
    (tariff tariffOld : Option String) (zoneCeutaMelilla : Bool)
    (power powerValley : Nat) (s : PVPCState) (utcNow : Nat)
    (habs : dlookup utcNow s.currentPrices = none) :
    processStateAndAttributes holidaySpain tariff tariffOld zoneCeutaMelilla
        power powerValley s utcNow =
      ({ state := s.state
         stateAvailable := false
         attributes := .base ATTRIBUTION
           (if utcNow / 24 < dateChangeTo20TD then tariffOld else tariff)
         currentPrices := applyPrune s.currentPrices utcNow }, false) := by
  obtain ⟨st, av, attrs, cp⟩ := s
  simp only at habs
  unfold processStateAndAttributes
  simp only [dlookup_applyPrune_none cp utcNow utcNow habs, Option.elim_none]

/-- C10 witness: the empty series with a stale state value 7. -/
theorem C10_witness :
    processStateAndAttributes (fun _ => false) (some "2.0TD") (some "discrimination")
        false 3300 3300
        { state := some 7, stateAvailable := true,
          attributes := .base ATTRIBUTION none, currentPrices := [] }
        (daysFromCivil 2021 6 2 * 24 + 10) =
      ({ state := some 7
         stateAvailable := false
         attributes := .base ATTRIBUTION
           (if (daysFromCivil 2021 6 2 * 24 + 10) / 24 < dateChangeTo20TD then
             some "discrimination" else some "2.0TD")
         currentPrices := applyPrune [] (daysFromCivil 2021 6 2 * 24 + 10) }, false) :=
  C10_unavailable_frame (fun _ => false) (some "2.0TD") (some "discrimination")
    false 3300 3300
    { state := some 7, stateAvailable := true,
      attributes := .base ATTRIBUTION none, currentPrices := [] }
    (daysFromCivil 2021 6 2 * 24 + 10) rfl
lemma madridOffset_bounds (u : Nat) : 1 ≤ madridOffset u ∧ madridOffset u ≤ 2 := by
  unfold madridOffset
  dsimp only
  split_ifs <;> omega

lemma localOfUtc_mono {u v : Nat} (h : u ≤ v) : localOfUtc u ≤ localOfUtc v := by
  rcases Nat.eq_or_lt_of_le h with rfl | hlt
  · exact le_rfl
  · have b1 := madridOffset_bounds u
    have b2 := madridOffset_bounds v
    unfold localOfUtc
    omega

lemma localDay_mono {u v : Nat} (h : u ≤ v) : localDay u ≤ localDay v :=
  Nat.div_le_div_right (localOfUtc_mono h)

lemma madridOffset_midnight_stay2 (d : Nat) (hd : 1 ≤ d)
    (h : madridOffset (d * 24 - 1) = 2) : madridOffset (d * 24 - 2) = 2 := by
  have hday : (d * 24 - 1) / 24 = d - 1 := by omega
  have hday2 : (d * 24 - 2) / 24 = d - 1 := by omega
  unfold madridOffset at h ⊢
  rw [hday] at h
  rw [hday2]
  dsimp only at h ⊢
  split_ifs at h ⊢ <;> omega

lemma madridOffset_midnight_stay1 (d : Nat) (hd : 1 ≤ d)
    (h : madridOffset (d * 24 - 1) = 1) : madridOffset (d * 24 - 2) = 1 := by
  have hday : (d * 24 - 1) / 24 = d - 1 := by omega
  have hday2 : (d * 24 - 2) / 24 = d - 1 := by omega
  unfold madridOffset at h ⊢
  rw [hday] at h
  rw [hday2]
  dsimp only at h ⊢
  split_ifs at h ⊢ <;> omega

lemma utcFromLocalMidnight_local (d : Nat) (hd : 1 ≤ d) :
    localOfUtc (utcFromLocalMidnight d) = d * 24 := by
  unfold utcFromLocalMidnight localOfUtc
  split_ifs with h
  · rw [h]; omega
  · have h2 : madridOffset (d * 24 - 1) = 2 := by
      have := madridOffset_bounds (d * 24 - 1)
      omega
    rw [madridOffset_midnight_stay2 d hd h2]
    omega

lemma localDay_lt_of_lt_cutoff (d : Nat) (hd : 1 ≤ d) (e : Nat)
    (he : e < utcFromLocalMidnight d) : localDay e < d := by
  unfold utcFromLocalMidnight at he
  unfold localDay
  have hlt24 : localOfUtc e < d * 24 := by
    split_ifs at he with h
    · -- cutoff = d*24-1, offset 1 there and at d*24-2
      have h1 : madridOffset (d * 24 - 2) = 1 := madridOffset_midnight_stay1 d hd h
      have hmono : localOfUtc e ≤ localOfUtc (d * 24 - 2) := localOfUtc_mono (by omega)
      unfold localOfUtc at hmono ⊢
      rw [h1] at hmono
      omega
    · -- cutoff = d*24-2
      have hb := madridOffset_bounds e
      unfold localOfUtc
      omega
  omega

lemma foldl_minKey_le (t : List (Nat × ℚ)) :
    ∀ b : Nat, t.foldl (fun m e => min m e.1) b ≤ b ∧
      ∀ e ∈ t, t.foldl (fun m e' => min m e'.1) b ≤ e.1 := by
  induction t with
  | nil => intro b; exact ⟨le_rfl, by simp⟩
  | cons a t' ih =>
    intro b
    rw [List.foldl_cons]
    obtain ⟨h1, h2⟩ := ih (min b a.1)
    refine ⟨h1.trans (min_le_left _ _), ?_⟩
    intro e he
    rcases List.mem_cons.mp he with h | h
    · rw [h]; exact h1.trans (min_le_right _ _)
    · exact h2 e h

lemma foldl_minKey_mem (t : List (Nat × ℚ)) :
    ∀ b : Nat, t.foldl (fun m e => min m e.1) b = b ∨
      ∃ e ∈ t, t.foldl (fun m e' => min m e'.1) b = e.1 := by
  induction t with
  | nil => intro b; exact Or.inl rfl
  | cons a t' ih =>
    intro b
    rw [List.foldl_cons]
    rcases ih (min b a.1) with h | h
    · rcases min_choice b a.1 with hc | hc
      · exact Or.inl (h.trans hc)
      · exact Or.inr ⟨a, by simp, h.trans hc⟩
    · obtain ⟨e, he, hv⟩ := h
      exact Or.inr ⟨e, by simp [he], hv⟩

lemma minKey_le (l : List (Nat × ℚ)) : ∀ e ∈ l, minKey l ≤ e.1 := by
  cases l with
  | nil => simp
  | cons a t =>
    intro e he
    rcases List.mem_cons.mp he with h | h
    · rw [h]; exact (foldl_minKey_le t a.1).1
    · exact (foldl_minKey_le t a.1).2 e h

lemma minKey_mem (l : List (Nat × ℚ)) (h : l ≠ []) : ∃ e ∈ l, minKey l = e.1 := by
  cases l with
  | nil => exact absurd rfl h
  | cons a t =>
    rcases foldl_minKey_mem t a.1 with hc | hc
    · exact ⟨a, by simp, hc⟩
    · obtain ⟨e, he, hv⟩ := hc
      exact ⟨e, by simp [he], hv⟩
/-- C1 (amended): the prune runs exactly when the series holds more than
25 points and the local hour is before 20; it keeps exactly the entries
at or after the cutoff, which is local midnight of the reference local
day; every surviving entry's local date is at least the reference date,
and the earliest surviving key's local date *equals* the reference date
whenever the series holds an entry dated on the reference local day (but
not in general: see the counterexample). -/
theorem C1_prune_invariants (prices : List (Nat × ℚ)) (utcTime : Nat)
    (hd : 1 ≤ localDay utcTime) :
    ((25 < prices.length ∧ localHour utcTime < 20) →
      ∀ e : Nat × ℚ, e ∈ applyPrune prices utcTime ↔
        e ∈ prices ∧ pruneCutoff utcTime ≤ e.1) ∧
    (¬(25 < prices.length ∧ localHour utcTime < 20) →
      applyPrune prices utcTime = prices) ∧
    localOfUtc (pruneCutoff utcTime) = localDay utcTime * 24 ∧
    (∀ e ∈ prices.filter (fun e => pruneCutoff utcTime ≤ e.1),
      localDay utcTime ≤ localDay e.1) ∧
    (prices.filter (fun e => pruneCutoff utcTime ≤ e.1) ≠ [] →
      localDay utcTime ≤
        localDay (minKey (prices.filter fun e => pruneCutoff utcTime ≤ e.1))) ∧
    ((∃ e ∈ prices, localDay e.1 = localDay utcTime) →
      localDay (minKey (prices.filter fun e => pruneCutoff utcTime ≤ e.1)) =
        localDay utcTime) := by
  have hmid : localOfUtc (pruneCutoff utcTime) = localDay utcTime * 24 :=
    utcFromLocalMidnight_local (localDay utcTime) hd
  have hafter : ∀ e : Nat × ℚ, pruneCutoff utcTime ≤ e.1 →
      localDay utcTime ≤ localDay e.1 := by
    intro e he
    have := localOfUtc_mono he
    rw [hmid] at this
    unfold localDay at this ⊢
    omega
  have hsurvive : ∀ e : Nat × ℚ, e ∈ prices → localDay e.1 = localDay utcTime →
      e ∈ prices.filter fun e => pruneCutoff utcTime ≤ e.1 := by
    intro e he hday
    rw [List.mem_filter]
    refine ⟨he, ?_⟩
    simp only [decide_eq_true_eq]
    by_contra hc
    push_neg at hc
    have := localDay_lt_of_lt_cutoff (localDay utcTime) hd e.1 hc
    omega
  refine ⟨?_, ?_, hmid, ?_, ?_, ?_⟩
  · intro hc e
    unfold applyPrune
    rw [if_pos hc, List.mem_filter]
    simp
  · intro hc
    unfold applyPrune
    rw [if_neg hc]
  · intro e he
    rw [List.mem_filter] at he
    exact hafter e (by simpa using he.2)
  · intro hne
    obtain ⟨e, he, hk⟩ := minKey_mem _ hne
    rw [List.mem_filter] at he
    rw [hk]
    exact hafter e (by simpa using he.2)
  · intro ⟨e, he, hday⟩
    have hmem := hsurvive e he hday
    have hne : prices.filter (fun e => pruneCutoff utcTime ≤ e.1) ≠ [] := by
      intro hnil
      rw [hnil] at hmem
      simp at hmem
    obtain ⟨e0, he0, hk0⟩ := minKey_mem _ hne
    refine le_antisymm ?_ ?_
    · have hle : minKey (prices.filter fun e => pruneCutoff utcTime ≤ e.1) ≤ e.1 :=
        minKey_le _ e hmem
      rw [← hday]
      exact localDay_mono hle
    · rw [hk0]
      rw [List.mem_filter] at he0
      exact hafter e0 (by simpa using he0.2)

/-- C1 counterexample: a series of 26 points all on the *next* local day,
at local hour 10: the prune runs, the result is non-empty, and the
earliest remaining key's local date is the next day, not the reference
day. -/
theorem C1_counterexample :
    (25 < ((List.range 26).map fun i =>
        (daysFromCivil 2021 1 15 * 24 + 23 + i, (0 : ℚ))).length ∧
      localHour (daysFromCivil 2021 1 15 * 24 + 9) < 20) ∧
    applyPrune ((List.range 26).map fun i =>
        (daysFromCivil 2021 1 15 * 24 + 23 + i, (0 : ℚ)))
      (daysFromCivil 2021 1 15 * 24 + 9) ≠ [] ∧
    localDay (minKey (applyPrune ((List.range 26).map fun i =>
        (daysFromCivil 2021 1 15 * 24 + 23 + i, (0 : ℚ)))
      (daysFromCivil 2021 1 15 * 24 + 9))) ≠
      localDay (daysFromCivil 2021 1 15 * 24 + 9) := by
  decide

/-- C1 witness: a two-day series at winter local hour 10. -/
theorem C1_witness :
    1 ≤ localDay (daysFromCivil 2021 1 15 * 24 + 9) ∧
    localOfUtc (pruneCutoff (daysFromCivil 2021 1 15 * 24 + 9)) =
      localDay (daysFromCivil 2021 1 15 * 24 + 9) * 24 ∧
    ((∃ e ∈ [((daysFromCivil 2021 1 15 * 24 + 10 : Nat), (3 : ℚ)),
        (daysFromCivil 2021 1 14 * 24 + 10, 4)],
        localDay e.1 = localDay (daysFromCivil 2021 1 15 * 24 + 9)) →
      localDay (minKey ([((daysFromCivil 2021 1 15 * 24 + 10 : Nat), (3 : ℚ)),
          (daysFromCivil 2021 1 14 * 24 + 10, 4)].filter
        (fun e => pruneCutoff (daysFromCivil 2021 1 15 * 24 + 9) ≤ e.1))) =
        localDay (daysFromCivil 2021 1 15 * 24 + 9)) := by
  have h := C1_prune_invariants
    [((daysFromCivil 2021 1 15 * 24 + 10 : Nat), (3 : ℚ)),
     (daysFromCivil 2021 1 14 * 24 + 10, 4)]
    (daysFromCivil 2021 1 15 * 24 + 9) (by decide)
  exact ⟨by decide, h.2.2.1, h.2.2.2.2.2⟩
lemma dupdate_cons {α β : Type} [DecidableEq α] (d : List (α × β)) (e : α × β)
    (t : List (α × β)) :
    dupdate d (e :: t) = dupdate (dinsert d e.1 e.2) t := rfl

lemma length_dinsert {α β : Type} [DecidableEq α] (d : List (α × β)) (k : α) (v : β) :
    (dinsert d k v).length =
      if (dlookup k d).isSome then d.length else d.length + 1 := by
  unfold dinsert
  split_ifs with h <;> simp

lemma dlookup_isSome_dinsert {α β : Type} [DecidableEq α]
    (d : List (α × β)) (k : α) (v : β) (k' : α) :
    (dlookup k' (dinsert d k v)).isSome ↔ (dlookup k' d).isSome ∨ k' = k := by
  by_cases h : k' = k
  · subst h
    rw [dlookup_dinsert_self]
    simp
  · rw [dlookup_dinsert_other _ _ _ _ h]
    simp [h]

lemma length_filter_mono {α : Type} (p q : α → Bool) (l : List α)
    (himp : ∀ a ∈ l, p a = true → q a = true) :
    (l.filter p).length ≤ (l.filter q).length := by
  induction l with
  | nil => simp
  | cons a t ih =>
    have iht := ih fun x hx => himp x (List.mem_cons_of_mem a hx)
    rw [List.filter_cons, List.filter_cons]
    by_cases hp : p a = true
    · rw [if_pos hp, if_pos (himp a (List.mem_cons_self a t) hp)]
      simpa using iht
    · rw [if_neg hp]
      split_ifs
      · exact iht.trans (by simp)
      · exact iht

lemma length_dupdate_le {α β : Type} [DecidableEq α] :
    ∀ (new d : List (α × β)),
    (dupdate d new).length ≤
      d.length + (new.filter fun e => !(dlookup e.1 d).isSome).length := by
  intro new
  induction new with
  | nil => intro d; simp [dupdate]
  | cons e t ih =>
    intro d
    rw [dupdate_cons]
    by_cases hc : (dlookup e.1 d).isSome
    · have hlen : (dinsert d e.1 e.2).length = d.length := by
        rw [length_dinsert, if_pos hc]
      have hmono : (t.filter fun x => !(dlookup x.1 (dinsert d e.1 e.2)).isSome).length ≤
          (t.filter fun x => !(dlookup x.1 d).isSome).length := by
        refine length_filter_mono _ _ t fun x _ hx => ?_
        simp only [Bool.not_eq_true'] at hx ⊢
        cases hval : (dlookup x.1 d).isSome
        · rfl
        · exfalso
          have h2 : (dlookup x.1 (dinsert d e.1 e.2)).isSome = true :=
            (dlookup_isSome_dinsert d e.1 e.2 x.1).mpr (Or.inl hval)
          rw [hx] at h2
          exact Bool.false_ne_true h2
      have hfe : (List.filter (fun x => !(dlookup x.1 d).isSome) (e :: t)) =
          t.filter fun x => !(dlookup x.1 d).isSome := by
        rw [List.filter_cons, if_neg (by simp [hc])]
      calc (dupdate (dinsert d e.1 e.2) t).length
          ≤ (dinsert d e.1 e.2).length +
            (t.filter fun x => !(dlookup x.1 (dinsert d e.1 e.2)).isSome).length := ih _
        _ ≤ d.length + (t.filter fun x => !(dlookup x.1 d).isSome).length := by
            rw [hlen]; exact Nat.add_le_add_left hmono _
        _ = d.length + ((e :: t).filter fun x => !(dlookup x.1 d).isSome).length := by
            rw [hfe]
    · have hlen : (dinsert d e.1 e.2).length = d.length + 1 := by
        rw [length_dinsert, if_neg hc]
      have hmono : (t.filter fun x => !(dlookup x.1 (dinsert d e.1 e.2)).isSome).length ≤
          (t.filter fun x => !(dlookup x.1 d).isSome).length := by
        refine length_filter_mono _ _ t fun x _ hx => ?_
        simp only [Bool.not_eq_true'] at hx ⊢
        cases hval : (dlookup x.1 d).isSome
        · rfl
        · exfalso
          have h2 : (dlookup x.1 (dinsert d e.1 e.2)).isSome = true :=
            (dlookup_isSome_dinsert d e.1 e.2 x.1).mpr (Or.inl hval)
          rw [hx] at h2
          exact Bool.false_ne_true h2
      have hfe : (List.filter (fun x => !(dlookup x.1 d).isSome) (e :: t)) =
          e :: (t.filter fun x => !(dlookup x.1 d).isSome) := by
        rw [List.filter_cons, if_pos (by simp [hc])]
      calc (dupdate (dinsert d e.1 e.2) t).length
          ≤ (dinsert d e.1 e.2).length +
            (t.filter fun x => !(dlookup x.1 (dinsert d e.1 e.2)).isSome).length := ih _
        _ ≤ d.length + 1 + (t.filter fun x => !(dlookup x.1 d).isSome).length := by
            rw [hlen]; exact Nat.add_le_add_left hmono _
        _ = d.length + ((e :: t).filter fun x => !(dlookup x.1 d).isSome).length := by
            rw [hfe]
            simp [Nat.add_comm, Nat.add_assoc, Nat.add_left_comm]
    
lemma length_filter_map_keyReplace {α β : Type} [DecidableEq α]
    (p : α → Bool) (k : α) (v : β) :
    ∀ d : List (α × β),
    ((d.map fun e => if e.1 = k then (k, v) else e).filter fun e => p e.1).length =
      (d.filter fun e => p e.1).length := by
  intro d
  induction d with
  | nil => rfl
  | cons a t ih =>
    obtain ⟨a1, a2⟩ := a
    rw [List.map_cons]
    by_cases ha : a1 = k
    · have hf : (if (a1, a2).1 = k then (k, v) else (a1, a2)) = (k, v) := by simp [ha]
      rw [hf, List.filter_cons, List.filter_cons]
      subst ha
      by_cases hp : p a1 = true
      · rw [if_pos (by simpa using hp), if_pos (by simpa using hp)]
        simpa using ih
      · rw [if_neg (by simpa using hp), if_neg (by simpa using hp)]
        exact ih
    · have hf : (if (a1, a2).1 = k then (k, v) else (a1, a2)) = (a1, a2) := by simp [ha]
      rw [hf, List.filter_cons, List.filter_cons]
      by_cases hp : p a1 = true
      · rw [if_pos (by simpa using hp), if_pos (by simpa using hp)]
        simpa using ih
      · rw [if_neg (by simpa using hp), if_neg (by simpa using hp)]
        exact ih

lemma length_filter_dinsert_le {α β : Type} [DecidableEq α]
    (p : α → Bool) (d : List (α × β)) (k : α) (v : β) :
    ((dinsert d k v).filter fun e => p e.1).length ≤
      (d.filter fun e => p e.1).length + 1 := by
  unfold dinsert
  split_ifs with h
  · rw [length_filter_map_keyReplace]
    exact Nat.le_succ _
  · rw [List.filter_append]
    rw [List.length_append]
    have : ((([(k, v)] : List (α × β))).filter fun e => p e.1).length ≤ 1 := by
      rw [List.filter_cons]
      split_ifs <;> simp
    omega

lemma length_filter_dupdate_le {α β : Type} [DecidableEq α] (p : α → Bool) :
    ∀ (new d : List (α × β)),
    ((dupdate d new).filter fun e => p e.1).length ≤
      (d.filter fun e => p e.1).length + new.length := by
  intro new
  induction new with
  | nil => intro d; simp [dupdate]
  | cons e t ih =>
    intro d
    rw [dupdate_cons]
    calc ((dupdate (dinsert d e.1 e.2) t).filter fun x => p x.1).length
        ≤ ((dinsert d e.1 e.2).filter fun x => p x.1).length + t.length := ih _
      _ ≤ (d.filter fun x => p x.1).length + 1 + t.length :=
          Nat.add_le_add_right (length_filter_dinsert_le p d e.1 e.2) _
      _ = (d.filter fun x => p x.1).length + (e :: t).length := by
          rw [List.length_cons]
          omega
/-- C2 (amended): at local hour ≥ 20 a cycle whose today fetch returned
data issues exactly one additional (next-day) fetch; below 20 no next-day
fetch is issued; and with today's points already cached (today's fetched
keys all present) on a cache of ≤ 24 points and a next-day payload of ≤ 25
points, the merged series holds at most 49 points.  (When the today fetch
comes back empty the cycle stops without the next-day fetch: see the
counterexample.) -/
theorem C2_evening_second_fetch :
    (∀ (fetch : Nat → FetchOutcome) (cache : List (Nat × ℚ)) (u : Nat),
      20 ≤ localHour u →
      downloadPvpcPrices (fetch (localDay u)) ≠ [] →
      (asyncUpdatePrices fetch cache u).fetchedDays = [localDay u, localDay u + 1]) ∧
    (∀ (fetch : Nat → FetchOutcome) (cache : List (Nat × ℚ)) (u : Nat),
      localHour u < 20 →
      (asyncUpdatePrices fetch cache u).fetchedDays = [localDay u]) ∧
    (∀ (fetch : Nat → FetchOutcome) (cache : List (Nat × ℚ)) (u : Nat),
      (∀ e ∈ downloadPvpcPrices (fetch (localDay u)),
        (dlookup e.1 cache).isSome = true) →
      cache.length ≤ 24 →
      (downloadPvpcPrices (fetch (localDay u + 1))).length ≤ 25 →
      (asyncUpdatePrices fetch cache u).currentPrices.length ≤ 49) := by
  have hld : ∀ u : Nat, localOfUtc u / 24 = localDay u := fun _ => rfl
  have hlh : ∀ u : Nat, localOfUtc u % 24 = localHour u := fun _ => rfl
  refine ⟨?_, ?_, ?_⟩
  · intro fetch cache u h20 hne
    simp only [asyncUpdatePrices, hld, hlh]
    rw [if_neg hne, if_pos h20]
  · intro fetch cache u h20
    simp only [asyncUpdatePrices, hld, hlh]
    by_cases hp : downloadPvpcPrices (fetch (localDay u)) = []
    · rw [if_pos hp]
    · rw [if_neg hp, if_neg (by omega)]
  · intro fetch cache u hkeys hcache hfut
    simp only [asyncUpdatePrices, hld, hlh]
    have hfilter0 :
        (List.filter (fun e => !(dlookup e.1 cache).isSome)
          (downloadPvpcPrices (fetch (localDay u)))) = [] := by
      rw [List.filter_eq_nil_iff]
      intro e he
      simp [hkeys e he]
    by_cases hp : downloadPvpcPrices (fetch (localDay u)) = []
    · rw [if_pos hp]
      exact hcache.trans (by omega)
    · rw [if_neg hp]
      by_cases h20 : 20 ≤ localHour u
      · rw [if_pos h20]
        by_cases hfn : downloadPvpcPrices (fetch (localDay u + 1)) = []
        · rw [if_pos hfn]
          dsimp only
          have hle := length_dupdate_le (downloadPvpcPrices (fetch (localDay u))) cache
          rw [hfilter0] at hle
          simp only [List.length_nil] at hle
          omega
        · rw [if_neg hfn]
          dsimp only
          have h1 := length_dupdate_le
            (dupdate (downloadPvpcPrices (fetch (localDay u)))
              (downloadPvpcPrices (fetch (localDay u + 1)))) cache
          have h2 := length_filter_dupdate_le
            (fun k => !(dlookup k cache).isSome)
            (downloadPvpcPrices (fetch (localDay u + 1)))
            (downloadPvpcPrices (fetch (localDay u)))
          rw [hfilter0] at h2
          simp only [List.length_nil] at h2
          omega
      · rw [if_neg h20]
        dsimp only
        have hle := length_dupdate_le (downloadPvpcPrices (fetch (localDay u))) cache
        rw [hfilter0] at hle
        simp only [List.length_nil] at hle
        omega

/-- C2 counterexample: at local hour 20 with a failed today fetch, the
cycle ends without issuing the next-day fetch. -/
theorem C2_counterexample :
    20 ≤ localHour (daysFromCivil 2021 6 3 * 24 + 18) ∧
    (asyncUpdatePrices (fun _ => FetchOutcome.timeout) []
        (daysFromCivil 2021 6 3 * 24 + 18)).fetchedDays =
      [localDay (daysFromCivil 2021 6 3 * 24 + 18)] ∧
    localDay (daysFromCivil 2021 6 3 * 24 + 18) + 1 ∉
      (asyncUpdatePrices (fun _ => FetchOutcome.timeout) []
        (daysFromCivil 2021 6 3 * 24 + 18)).fetchedDays := by
  decide

/-- C2 witness: a two-day fetch at local hour 20 over a cached today. -/
theorem C2_witness :
    (20 ≤ localHour (daysFromCivil 2021 6 3 * 24 + 18) ∧
      (asyncUpdatePrices
        (fun d => if d = localDay (daysFromCivil 2021 6 3 * 24 + 18) then
          FetchOutcome.success [(453010, (5 : ℚ))]
        else FetchOutcome.success [(453034, (6 : ℚ))])
        [(453010, (5 : ℚ))] (daysFromCivil 2021 6 3 * 24 + 18)).fetchedDays =
      [localDay (daysFromCivil 2021 6 3 * 24 + 18),
        localDay (daysFromCivil 2021 6 3 * 24 + 18) + 1]) ∧
    (localHour (daysFromCivil 2021 6 3 * 24 + 10) < 20 ∧
      (asyncUpdatePrices (fun _ => FetchOutcome.timeout) []
        (daysFromCivil 2021 6 3 * 24 + 10)).fetchedDays =
      [localDay (daysFromCivil 2021 6 3 * 24 + 10)]) ∧
    (asyncUpdatePrices
        (fun d => if d = localDay (daysFromCivil 2021 6 3 * 24 + 18) then
          FetchOutcome.success [(453010, (5 : ℚ))]
        else FetchOutcome.success [(453034, (6 : ℚ))])
        [(453010, (5 : ℚ))] (daysFromCivil 2021 6 3 * 24 + 18)).currentPrices.length ≤
      49 :=
  ⟨⟨by decide,
    C2_evening_second_fetch.1 _ [(453010, (5 : ℚ))] (daysFromCivil 2021 6 3 * 24 + 18)
      (by decide) (by decide)⟩,
   ⟨by decide,
    C2_evening_second_fetch.2.1 (fun _ => FetchOutcome.timeout) []
      (daysFromCivil 2021 6 3 * 24 + 10) (by decide)⟩,
   C2_evening_second_fetch.2.2 _ [(453010, (5 : ℚ))] (daysFromCivil 2021 6 3 * 24 + 18)
     (by decide) (by decide) (by decide)⟩

end Aiopvpc
